import Mathlib

/-!
# mackerel-plugin-aws-batch: metric derivation

A shallow embedding of `lib/mackerel-plugin-aws-batch.go` (package `mpawsbatch`):
`GraphDefinition`, `FetchMetrics`, `getListJobs`, `getLastPoint`, `getRuntime`,
together with the parts of the Go runtime and of `aws-sdk-go` they call
(`int64` arithmetic, `time.Unix`, `time.Since`, `Duration.Minutes`, `float64`
conversion and arithmetic, `aws.StringValue`, `aws.MillisecondsTimeValue`).

Conventions.
* A `time.Time` is the integer number of nanoseconds between the Unix epoch and the instant.
* A finite `float64` is the rational number it denotes; every `float64` operation rounds its
  exact result to binary64 (nearest, ties to even).
* The batch service and the wall clock are the environment of a pass: the reply of the service
  may depend on how many requests were issued before, and the clock is read once per job.
-/

namespace MpAwsBatch

/-! ## Go runtime -/

/-- Smallest `int64`. -/
def minInt64 : Int := -9223372036854775808

/-- Largest `int64`. -/
def maxInt64 : Int := 9223372036854775807

/-- Result of an `int64` operation whose exact result is `x`: two's-complement wrap-around. -/
def wrapInt64 (x : Int) : Int := (x + 9223372036854775808) % 18446744073709551616 - 9223372036854775808

/-- Round a rational to the nearest integer, ties to the even one. -/
def roundHalfEven (y : ℚ) : Int :=
  if y - ⌊y⌋ < 1 / 2 then ⌊y⌋
  else if 1 / 2 < y - ⌊y⌋ then ⌊y⌋ + 1
  else if ⌊y⌋ % 2 = 0 then ⌊y⌋ else ⌊y⌋ + 1

/-- Exponent of the unit in the last place of the binary64 format at `x`: 53 significant bits,
smallest normal exponent -1022 (below it the spacing is that of the subnormals). -/
def ulpExp (x : ℚ) : Int := max (Int.log 2 |x|) (-1022) - 52

/-- Rounding of an exact result to `float64` (IEEE 754 binary64, round to nearest, ties to
even). Results of magnitude 2^1024 and more, which binary64 turns into an infinity, do not
arise from the operands of this program (all are below 2^64 in magnitude). -/
def roundFloat64 (x : ℚ) : ℚ := (roundHalfEven (x / 2 ^ ulpExp x) : ℚ) * 2 ^ ulpExp x

/-- Conversion `float64(n)` of an integer. -/
def float64OfInt (n : Int) : ℚ := roundFloat64 n

/-- Addition of two `float64`. -/
def float64Add (a b : ℚ) : ℚ := roundFloat64 (a + b)

/-- Division of two `float64`. -/
def float64Div (a b : ℚ) : ℚ := roundFloat64 (a / b)

/-! ## package time -/

/-- The zero `time.Time{}`. Package time: "The zero value of type Time is January 1, year 1,
00:00:00.000000000 UTC", which is 62135596800 seconds before the Unix epoch. -/
def zeroTime : Int := -62135596800 * 1000000000

/-- Instant `time.Unix(sec, nsec)`: `sec` seconds and `nsec` nanoseconds after the Unix epoch. -/
def timeUnix (sec nsec : Int) : Int := sec * 1000000000 + nsec

/-- Duration `t.Sub(u)` in nanoseconds. Package time: "Sub returns the duration t-u. If the
result exceeds the maximum (or minimum) value that can be stored in a Duration, the maximum (or
minimum) duration will be returned." -/
def timeSub (t u : Int) : Int :=
  if t - u > maxInt64 then maxInt64 else if t - u < minInt64 then minInt64 else t - u

/-- Duration `time.Since(t)` when the wall clock reads `now`: `time.Now().Sub(t)`. -/
def timeSince (now t : Int) : Int := timeSub now t

/-- The constant `time.Minute`, in nanoseconds. -/
def Minute : Int := 60000000000

/-- Method `Duration.Minutes`: `float64(d / Minute) + float64(d % Minute) / (60 * 1e9)`, with
Go's truncated integer division and remainder. -/
def Minutes (d : Int) : ℚ :=
  float64Add (float64OfInt (Int.tdiv d Minute)) (float64Div (float64OfInt (Int.tmod d Minute)) 60000000000)

/-! ## aws-sdk-go -/

/-- Function `aws.StringValue`: the string pointed to, or `""` for a nil pointer. -/
def StringValue : Option String → String
  | some s => s
  | none => ""

/-- Function `aws.MillisecondsTimeValue` of aws-sdk-go (`aws/convert_types.go`), which "converts
an int64 pointer to a time.Time value representing milliseconds sinch Epoch or time.Time{} if the
pointer is nil": `time.Unix(0, *v * 1000000)`, the product being taken in `int64`, or
`time.Time{}`. -/
def MillisecondsTimeValue : Option Int → Int
  | some v => timeUnix 0 (wrapInt64 (v * 1000000))
  | none => zeroTime

/-- Type `batch.JobSummary`, the fields read by the plugin. -/
structure JobSummary where
  JobName : Option String
  StartedAt : Option Int
deriving DecidableEq, Repr

/-- Type `batch.ListJobsOutput`. -/
structure ListJobsOutput where
  JobSummaryList : List JobSummary
deriving DecidableEq, Repr

/-- A Go `error` value. -/
abbrev Error := String

/-- The batch client: `client k queue status` is the outcome of
`ListJobs(JobQueue: queue, JobStatus: status)` when it is the request number `k` of the pass
(counting from 0). -/
abbrev Client := Nat → String → String → Except Error ListJobsOutput

/-! ## go-mackerel-plugin-helper -/

/-- Type `mp.Metrics`, the fields set by the plugin. -/
structure Metrics where
  Name : String
  Label : String
deriving DecidableEq, Repr

/-- Type `mp.Graphs`. -/
structure Graphs where
  Label : String
  Unit : String
  Metrics : List Metrics
deriving DecidableEq, Repr

/-! ## The plugin -/

/-- Type `AwsBatchPlugin`. -/
structure AwsBatchPlugin where
  AccessKeyID : String
  SecretAccessKey : String
  Region : String
  Batch : Client
  JobQueues : List String

/-- Method `GraphDefinition`: the map literal, as its list of entries. -/
def GraphDefinition (_p : AwsBatchPlugin) : List (String × Graphs) :=
  [ ("aws.batch.jobs.#",
      { Label := "AWS Batch Jobs"
        Unit := "integer"
        Metrics :=
          [ { Name := "SUBMITTED", Label := "SUBMITTED" },
            { Name := "PENDING", Label := "PENDING" },
            { Name := "RUNNABLE", Label := "RUNNABLE" },
            { Name := "STARTING", Label := "STARTING" },
            { Name := "RUNNING", Label := "RUNNING" } ] }),
    ("aws.batch.runtime.#",
      { Label := "AWS Batch Jobs Runtime"
        Unit := "float"
        Metrics := [ { Name := "*", Label := "%2" } ] }) ]

/-- The map `stat` of `FetchMetrics` (`map[string]interface{}` holding `float64` values), as
the list of its entries, one per key. -/
abbrev Stat := List (String × ℚ)

/-- Assignment `stat[k] = v`. -/
def Stat.set (m : Stat) (k : String) (v : ℚ) : Stat :=
  (k, v) :: m.filter (fun e => e.1 != k)

/-- Value stored at a key, if any. -/
def Stat.get? (m : Stat) (k : String) : Option ℚ := m.lookup k

/-- Keys of the map. -/
def Stat.keys (m : Stat) : List String := m.map Prod.fst

/-- The slice `statuses` of `FetchMetrics`. -/
def statuses : List String := ["SUBMITTED", "PENDING", "RUNNABLE", "STARTING", "RUNNING"]

/-- Method `getListJobs`, issued as request number `k`. -/
def getListJobs (p : AwsBatchPlugin) (k : Nat) (name status : String) : Except Error ListJobsOutput :=
  match p.Batch k name status with
  | .error err => .error err
  | .ok resp => .ok { resp with JobSummaryList := resp.JobSummaryList }

/-- Method `getLastPoint`. -/
def getLastPoint (lj : ListJobsOutput) : ℚ := float64OfInt lj.JobSummaryList.length

/-- Method `getRuntime`, the wall clock reading `now`. -/
def getRuntime (now : Int) (js : JobSummary) : ℚ :=
  Minutes (timeSince now (MillisecondsTimeValue js.StartedAt))

/-- Key of the count metric of a queue and a status. -/
def jobsKey (name s : String) : String := "aws.batch.jobs." ++ name ++ "." ++ s

/-- Key of the runtime metric of a job of a queue. -/
def runtimeKey (name : String) (js : JobSummary) : String :=
  "aws.batch.runtime." ++ name ++ "." ++ StringValue js.JobName

/-- State of a pass of `FetchMetrics`: the map built so far, the requests issued so far (oldest
first) and the number of clock readings taken so far. -/
structure Pass where
  stat : Stat
  queries : List (String × String)
  ticks : Nat

/-- The loop over `lj.JobSummaryList` in `FetchMetrics`; `clock t` is the reading number `t` of
the wall clock. -/
def runtimeLoop (clock : Nat → Int) (name : String) : List JobSummary → Stat → Nat → Stat × Nat
  | [], stat, t => (stat, t)
  | js :: rest, stat, t =>
      runtimeLoop clock name rest (stat.set (runtimeKey name js) (getRuntime (clock t) js)) (t + 1)

/-- The loop over `statuses` in `FetchMetrics`, for the queue `name`: the error that ended it, if
any, and the state reached. -/
def statusLoop (p : AwsBatchPlugin) (clock : Nat → Int) (name : String) :
    List String → Pass → Option Error × Pass
  | [], st => (none, st)
  | s :: rest, st =>
      match getListJobs p st.queries.length name s with
      | .error err => (some err, { st with queries := st.queries ++ [(name, s)] })
      | .ok lj =>
          let stat := st.stat.set (jobsKey name s) (getLastPoint lj)
          let r := if s = "RUNNING" then runtimeLoop clock name lj.JobSummaryList stat st.ticks
                   else (stat, st.ticks)
          statusLoop p clock name rest
            { stat := r.1, queries := st.queries ++ [(name, s)], ticks := r.2 }

/-- The loop over `p.JobQueues` in `FetchMetrics`. -/
def queueLoop (p : AwsBatchPlugin) (clock : Nat → Int) : List String → Pass → Option Error × Pass
  | [], st => (none, st)
  | name :: rest, st =>
      match statusLoop p clock name statuses st with
      | (some err, st') => (some err, st')
      | (none, st') => queueLoop p clock rest st'

/-- What a call of `FetchMetrics` returns and does: the two results (a nil map is `none`, a nil
error is `none`), the requests sent to the batch service, in order, and the number of clock
readings. -/
structure Outcome where
  stat : Option Stat
  err : Option Error
  queries : List (String × String)
  ticks : Nat

/-- Method `FetchMetrics`. -/
def FetchMetrics (p : AwsBatchPlugin) (clock : Nat → Int) : Outcome :=
  match queueLoop p clock p.JobQueues { stat := [], queries := [], ticks := 0 } with
  | (some err, st) => { stat := none, err := some err, queries := st.queries, ticks := st.ticks }
  | (none, st) => { stat := some st.stat, err := none, queries := st.queries, ticks := st.ticks }

/-! ## Vocabulary of the statements -/

/-- Queue number `i` of the configuration (counting from 0). -/
def queueAt (p : AwsBatchPlugin) (i : Nat) : String := p.JobQueues.getD i ""

/-- Status number `j` of `statuses` (counting from 0). -/
def statusAt (j : Nat) : String := statuses.getD j ""

/-- The nested enumeration of the requests of a pass: for each queue in configuration order,
each status in the order of `statuses`. -/
def pairs (queues : List String) : List (String × String) :=
  queues.flatMap (fun name => statuses.map (fun s => (name, s)))

/-- Outcome of request number `k` of the nested enumeration, the one for queue `k / 5` and
status `k % 5`, when it is issued as request number `k`. -/
def replyOf (p : AwsBatchPlugin) (k : Nat) : Except Error ListJobsOutput :=
  getListJobs p k (queueAt p (k / 5)) (statusAt (k % 5))

/-- Whether a request succeeded. -/
def isOk : Except Error ListJobsOutput → Bool
  | .ok _ => true
  | .error _ => false

/-- Every request of the pass succeeds. -/
def allOk (p : AwsBatchPlugin) : Prop :=
  ∀ k, k < 5 * p.JobQueues.length → isOk (replyOf p k) = true

/-- Request number `k` is the first one that fails, with error `err`. -/
def firstFailure (p : AwsBatchPlugin) (k : Nat) (err : Error) : Prop :=
  k < 5 * p.JobQueues.length ∧ replyOf p k = .error err ∧ ∀ k', k' < k → isOk (replyOf p k') = true

/-- Job summaries returned by request number `k` (none when it fails). -/
def jobsOf (p : AwsBatchPlugin) (k : Nat) : List JobSummary :=
  match replyOf p k with
  | .ok lj => lj.JobSummaryList
  | .error _ => []

/-- Job summaries returned by the RUNNING request of queue number `i`. -/
def runningJobs (p : AwsBatchPlugin) (i : Nat) : List JobSummary := jobsOf p (5 * i + 4)

/-- Number of clock readings taken before the jobs of queue number `i` are measured: one per
RUNNING job of the queues before it. -/
def ticksBefore (p : AwsBatchPlugin) : Nat → Nat
  | 0 => 0
  | i + 1 => ticksBefore p i + (runningJobs p i).length

/-- The assignments to `stat` made by the loop over a list of job summaries, the first at
clock reading number `t`. -/
def runtimeWrites (clock : Nat → Int) (name : String) : List JobSummary → Nat → List (String × ℚ)
  | [], _ => []
  | js :: rest, t =>
      (runtimeKey name js, getRuntime (clock t) js) :: runtimeWrites clock name rest (t + 1)

/-- The assignment of the count of status number `j` of queue number `i`. -/
def countWrite (p : AwsBatchPlugin) (i j : Nat) : String × ℚ :=
  (jobsKey (queueAt p i) (statusAt j), float64OfInt (jobsOf p (5 * i + j)).length)

/-- The assignments to `stat` made for queue number `i` on a successful pass, in order. -/
def queueWrites (p : AwsBatchPlugin) (clock : Nat → Int) (i : Nat) : List (String × ℚ) :=
  [countWrite p i 0, countWrite p i 1, countWrite p i 2, countWrite p i 3, countWrite p i 4]
    ++ runtimeWrites clock (queueAt p i) (runningJobs p i) (ticksBefore p i)

/-- The assignments made for `n` queues from queue number `i` on. -/
def writesFrom (p : AwsBatchPlugin) (clock : Nat → Int) (i : Nat) : Nat → List (String × ℚ)
  | 0 => []
  | n + 1 => queueWrites p clock i ++ writesFrom p clock (i + 1) n

/-- A map after a list of assignments. -/
def applyWrites (ws : List (String × ℚ)) (m : Stat) : Stat :=
  ws.foldl (fun m w => m.set w.1 w.2) m

/-! ## Example configurations -/

/-- A plugin with the client `c` and the queues `queues`, and no credentials or region. -/
def mkPlugin (c : Client) (queues : List String) : AwsBatchPlugin :=
  { AccessKeyID := "", SecretAccessKey := "", Region := "", Batch := c, JobQueues := queues }

/-- A service that knows the queue `q1` only, holding 2 SUBMITTED, 0 PENDING, 1 RUNNABLE,
0 STARTING and 1 RUNNING job, the last one started at 1700000000000 ms. -/
def exampleClient : Client := fun _ queue status =>
  if queue = "q1" then
    if status = "SUBMITTED" then .ok { JobSummaryList := [⟨some "a", none⟩, ⟨some "b", none⟩] }
    else if status = "RUNNABLE" then .ok { JobSummaryList := [⟨some "c", none⟩] }
    else if status = "RUNNING" then .ok { JobSummaryList := [⟨some "job", some 1700000000000⟩] }
    else .ok { JobSummaryList := [] }
  else .error "JobQueue not found"

/-- A service with one RUNNING job in `q1`, whose start timestamp lies in the year 2262. -/
def farFutureClient : Client := fun _ queue status =>
  if queue = "q1" then
    if status = "RUNNING" then .ok { JobSummaryList := [⟨some "job", some 9223372036855⟩] }
    else .ok { JobSummaryList := [] }
  else .error "JobQueue not found"

/-- A service with two RUNNING jobs named `b.c` in the queue `a` and one RUNNING job named `c`
in the queue `a.b`. -/
def collisionClient : Client := fun _ queue status =>
  if status = "RUNNING" then
    if queue = "a" then
      .ok { JobSummaryList := [⟨some "b.c", some 1700000000000⟩, ⟨some "b.c", some 1700000060000⟩] }
    else if queue = "a.b" then .ok { JobSummaryList := [⟨some "c", some 1700000000000⟩] }
    else .ok { JobSummaryList := [] }
  else .ok { JobSummaryList := [] }

/-- A service whose queues hold two RUNNING jobs named `x` during the first five requests of a
pass and no job afterwards. -/
def drainingClient : Client := fun k _ status =>
  if status = "RUNNING" then
    if k < 5 then
      .ok { JobSummaryList := [⟨some "x", some 1700000000000⟩, ⟨some "x", some 1700000060000⟩] }
    else .ok { JobSummaryList := [] }
  else .ok { JobSummaryList := [] }

/-- A clock that reads `now` at every reading. -/
def constClock (now : Int) : Nat → Int := fun _ => now

/-! ## The map -/

theorem lookup_filter_ne (m : List (String × ℚ)) (k k' : String) (h : k' ≠ k) :
    List.lookup k' (m.filter (fun e => e.1 != k)) = List.lookup k' m := by
  induction m with
  | nil => rfl
  | cons e m ih =>
      obtain ⟨a, b⟩ := e
      by_cases he : a = k
      · have h1 : (k' == a) = false := by simpa [he] using h
        have h2 : ((a, b).1 != k) = false := by simp [he]
        rw [List.filter_cons_of_neg (p := fun e : String × ℚ => e.1 != k) (by simp [h2]),
          List.lookup_cons, h1, ih]
      · have h2 : ((a, b).1 != k) = true := by simpa using he
        rw [List.filter_cons_of_pos (p := fun e : String × ℚ => e.1 != k) h2, List.lookup_cons,
          List.lookup_cons, ih]

theorem Stat.get?_set (m : Stat) (k k' : String) (v : ℚ) :
    (m.set k v).get? k' = if k' = k then some v else m.get? k' := by
  unfold Stat.set Stat.get?
  by_cases h : k' = k
  · subst h; simp [List.lookup]
  · have h' : (k' == k) = false := by simpa using h
    rw [List.lookup_cons, h', if_neg h]
    exact lookup_filter_ne m k k' h

theorem Stat.mem_keys_set (m : Stat) (k k' : String) (v : ℚ) :
    k' ∈ (m.set k v).keys ↔ k' = k ∨ k' ∈ m.keys := by
  unfold Stat.set Stat.keys
  simp only [List.map_cons, List.mem_cons, List.mem_map, List.mem_filter]
  constructor
  · rintro (h | ⟨e, ⟨he, _⟩, rfl⟩)
    · exact Or.inl h
    · exact Or.inr ⟨e, he, rfl⟩
  · rintro (h | ⟨e, he, rfl⟩)
    · exact Or.inl h
    · by_cases hk : e.1 = k
      · exact Or.inl hk
      · exact Or.inr ⟨e, ⟨he, by simpa using hk⟩, rfl⟩

theorem Stat.nodup_keys_set (m : Stat) (k : String) (v : ℚ) (h : m.keys.Nodup) :
    (m.set k v).keys.Nodup := by
  unfold Stat.set Stat.keys at *
  simp only [List.map_cons, List.nodup_cons, List.mem_map, List.mem_filter]
  refine ⟨?_, ?_⟩
  · rintro ⟨e, ⟨_, he⟩, rfl⟩
    simp at he
  · exact (List.Nodup.sublist (List.Sublist.map _ (List.filter_sublist _)) h)

theorem applyWrites_nil (m : Stat) : applyWrites [] m = m := rfl

theorem applyWrites_cons (w : String × ℚ) (ws : List (String × ℚ)) (m : Stat) :
    applyWrites (w :: ws) m = applyWrites ws (m.set w.1 w.2) := rfl

theorem applyWrites_append (ws₁ ws₂ : List (String × ℚ)) (m : Stat) :
    applyWrites (ws₁ ++ ws₂) m = applyWrites ws₂ (applyWrites ws₁ m) := by
  simp [applyWrites, List.foldl_append]

theorem get?_applyWrites_of_not_mem (k : String) :
    ∀ (ws : List (String × ℚ)) (m : Stat), (∀ w ∈ ws, w.1 ≠ k) →
      (applyWrites ws m).get? k = m.get? k := by
  intro ws
  induction ws with
  | nil => intro m _; rfl
  | cons w ws ih =>
      intro m h
      rw [applyWrites_cons, ih _ (fun w' hw' => h w' (List.mem_cons_of_mem _ hw')),
        Stat.get?_set, if_neg (fun e => h w (List.mem_cons_self _ _) e.symm)]

/-- Last write wins: the value at a key is the one of the last assignment to it. -/
theorem get?_applyWrites_last (k : String) (v : ℚ) (ws₁ ws₂ : List (String × ℚ)) (m : Stat)
    (h : ∀ w ∈ ws₂, w.1 ≠ k) :
    (applyWrites (ws₁ ++ (k, v) :: ws₂) m).get? k = some v := by
  rw [applyWrites_append, applyWrites_cons, get?_applyWrites_of_not_mem k ws₂ _ h, Stat.get?_set,
    if_pos rfl]

theorem get?_applyWrites_const (k : String) (v : ℚ) :
    ∀ (ws : List (String × ℚ)) (m : Stat), (∀ w ∈ ws, w.1 = k → w.2 = v) →
      (m.get? k = some v ∨ ∃ w ∈ ws, w.1 = k) → (applyWrites ws m).get? k = some v := by
  intro ws
  induction ws with
  | nil =>
      intro m _ h
      rcases h with h | ⟨w, hw, _⟩
      · exact h
      · cases hw
  | cons w ws ih =>
      intro m hv h
      rw [applyWrites_cons]
      apply ih _ (fun w' hw' => hv w' (List.mem_cons_of_mem _ hw'))
      by_cases hk : w.1 = k
      · left
        rw [Stat.get?_set, if_pos hk.symm, hv w (List.mem_cons_self _ _) hk]
      · rcases h with h | ⟨w', hw', hk'⟩
        · left
          rw [Stat.get?_set, if_neg (fun e => hk e.symm)]
          exact h
        · rcases List.mem_cons.1 hw' with e | hw''
          · exact absurd (e ▸ hk') hk
          · exact Or.inr ⟨w', hw'', hk'⟩

theorem mem_keys_applyWrites (k : String) :
    ∀ (ws : List (String × ℚ)) (m : Stat),
      k ∈ (applyWrites ws m).keys ↔ k ∈ ws.map Prod.fst ∨ k ∈ m.keys := by
  intro ws
  induction ws with
  | nil => intro m; simp [applyWrites]
  | cons w ws ih =>
      intro m
      rw [applyWrites_cons, ih, Stat.mem_keys_set]
      simp only [List.map_cons, List.mem_cons]
      tauto

theorem nodup_keys_applyWrites :
    ∀ (ws : List (String × ℚ)) (m : Stat), m.keys.Nodup → (applyWrites ws m).keys.Nodup := by
  intro ws
  induction ws with
  | nil => intro m h; exact h
  | cons w ws ih => intro m h; exact ih _ (Stat.nodup_keys_set m _ _ h)

/-! ## The loops -/

theorem runtimeLoop_eq (clock : Nat → Int) (name : String) :
    ∀ (l : List JobSummary) (stat : Stat) (t : Nat),
      runtimeLoop clock name l stat t
        = (applyWrites (runtimeWrites clock name l t) stat, t + l.length) := by
  intro l
  induction l with
  | nil => intro stat t; rfl
  | cons js rest ih =>
      intro stat t
      rw [runtimeLoop, ih, runtimeWrites, applyWrites_cons, List.length_cons]
      congr 1
      omega

theorem isOk_iff (r : Except Error ListJobsOutput) : isOk r = true ↔ ∃ lj, r = .ok lj := by
  cases r with
  | ok lj => simp [isOk]
  | error e => simp [isOk]

/-- One queue, all five requests succeeding. -/
theorem statusLoop_ok (p : AwsBatchPlugin) (clock : Nat → Int) (name : String) (st : Pass)
    (l0 l1 l2 l3 l4 : ListJobsOutput)
    (h0 : getListJobs p st.queries.length name "SUBMITTED" = .ok l0)
    (h1 : getListJobs p (st.queries.length + 1) name "PENDING" = .ok l1)
    (h2 : getListJobs p (st.queries.length + 2) name "RUNNABLE" = .ok l2)
    (h3 : getListJobs p (st.queries.length + 3) name "STARTING" = .ok l3)
    (h4 : getListJobs p (st.queries.length + 4) name "RUNNING" = .ok l4) :
    statusLoop p clock name statuses st =
      (none,
        { stat := applyWrites
            ([(jobsKey name "SUBMITTED", getLastPoint l0), (jobsKey name "PENDING", getLastPoint l1),
              (jobsKey name "RUNNABLE", getLastPoint l2), (jobsKey name "STARTING", getLastPoint l3),
              (jobsKey name "RUNNING", getLastPoint l4)]
              ++ runtimeWrites clock name l4.JobSummaryList st.ticks) st.stat
          queries := st.queries ++ statuses.map (fun s => (name, s))
          ticks := st.ticks + l4.JobSummaryList.length }) := by
  simp [statusLoop, statuses, h0, h1, h2, h3, h4, runtimeLoop_eq, applyWrites_append,
    applyWrites_cons, applyWrites_nil]

/-- One queue, request number `j` of the five being the first that fails. -/
theorem statusLoop_err (p : AwsBatchPlugin) (clock : Nat → Int) (name : String) (st : Pass)
    (j : Nat) (hj : j < 5) (e : Error)
    (hfail : getListJobs p (st.queries.length + j) name (statusAt j) = .error e)
    (hprev : ∀ j', j' < j → isOk (getListJobs p (st.queries.length + j') name (statusAt j')) = true) :
    (statusLoop p clock name statuses st).1 = some e ∧
      (statusLoop p clock name statuses st).2.queries
        = st.queries ++ (statuses.take (j + 1)).map (fun s => (name, s)) := by
  have h0 := hprev 0
  have h1 := hprev 1
  have h2 := hprev 2
  have h3 := hprev 3
  simp only [isOk_iff, statusAt, statuses, List.getD_cons_zero, List.getD_cons_succ,
    Nat.add_zero] at h0 h1 h2 h3 hfail
  interval_cases j
  · simp [statusLoop, statuses, statusAt] at hfail ⊢
    simp [hfail]
  · obtain ⟨l0, h0⟩ := h0 (by omega)
    simp [statusLoop, statuses, statusAt, h0] at hfail ⊢
    simp [hfail]
  · obtain ⟨l0, h0⟩ := h0 (by omega)
    obtain ⟨l1, h1⟩ := h1 (by omega)
    simp [statusLoop, statuses, statusAt, h0, h1] at hfail ⊢
    simp [hfail]
  · obtain ⟨l0, h0⟩ := h0 (by omega)
    obtain ⟨l1, h1⟩ := h1 (by omega)
    obtain ⟨l2, h2⟩ := h2 (by omega)
    simp [statusLoop, statuses, statusAt, h0, h1, h2] at hfail ⊢
    simp [hfail]
  · obtain ⟨l0, h0⟩ := h0 (by omega)
    obtain ⟨l1, h1⟩ := h1 (by omega)
    obtain ⟨l2, h2⟩ := h2 (by omega)
    obtain ⟨l3, h3⟩ := h3 (by omega)
    simp [statusLoop, statuses, statusAt, h0, h1, h2, h3] at hfail ⊢
    simp [hfail]

theorem replyOf_at (p : AwsBatchPlugin) (i j : Nat) (hj : j < 5) :
    replyOf p (5 * i + j) = getListJobs p (5 * i + j) (queueAt p i) (statusAt j) := by
  unfold replyOf
  have h1 : (5 * i + j) / 5 = i := by omega
  have h2 : (5 * i + j) % 5 = j := by omega
  rw [h1, h2]

theorem length_pairs (qs : List String) : (pairs qs).length = 5 * qs.length := by
  induction qs with
  | nil => rfl
  | cons q qs ih =>
      simp only [pairs, List.flatMap_cons, List.length_append, List.length_map, List.length_cons] at ih ⊢
      rw [ih]
      simp [statuses]
      omega

theorem pairs_append (qs₁ qs₂ : List String) : pairs (qs₁ ++ qs₂) = pairs qs₁ ++ pairs qs₂ := by
  simp [pairs, List.flatMap_append]

theorem pairs_singleton (q : String) : pairs [q] = statuses.map (fun s => (q, s)) := by
  simp [pairs]

theorem queueAt_append (p : AwsBatchPlugin) (pre rest : List String) (name : String)
    (h : p.JobQueues = pre ++ name :: rest) : queueAt p pre.length = name := by
  unfold queueAt
  rw [h, List.getD_eq_getElem?_getD, List.getElem?_append_right (Nat.le_refl _)]
  simp

theorem jobsOf_of_ok (p : AwsBatchPlugin) (k : Nat) (lj : ListJobsOutput)
    (h : replyOf p k = .ok lj) : jobsOf p k = lj.JobSummaryList := by
  simp [jobsOf, h]

/-- The loop over the queues when every remaining request succeeds. -/
theorem queueLoop_ok (p : AwsBatchPlugin) (clock : Nat → Int) :
    ∀ (rest pre : List String) (st : Pass), p.JobQueues = pre ++ rest →
      st.queries = pairs pre → st.ticks = ticksBefore p pre.length →
      (∀ k, 5 * pre.length ≤ k → k < 5 * (pre.length + rest.length) → isOk (replyOf p k) = true) →
      queueLoop p clock rest st =
        (none,
          { stat := applyWrites (writesFrom p clock pre.length rest.length) st.stat
            queries := pairs (pre ++ rest)
            ticks := ticksBefore p (pre.length + rest.length) }) := by
  intro rest
  induction rest with
  | nil =>
      intro pre st _ hq ht _
      simp [queueLoop, writesFrom, applyWrites_nil, ← hq, ← ht]
  | cons name rest ih =>
      intro pre st hp hq ht hok
      have hname := queueAt_append p pre rest name hp
      have hlen : st.queries.length = 5 * pre.length := by rw [hq, length_pairs]
      have hr : ∀ j, j < 5 → ∃ lj, getListJobs p (st.queries.length + j) name (statusAt j) = .ok lj ∧
          replyOf p (5 * pre.length + j) = .ok lj := by
        intro j hj
        have h := hok (5 * pre.length + j) (by omega) (by simp only [List.length_cons]; omega)
        obtain ⟨lj, hlj⟩ := (isOk_iff _).1 h
        refine ⟨lj, ?_, hlj⟩
        rw [replyOf_at p _ j hj, hname] at hlj
        rw [hlen]
        exact hlj
      obtain ⟨l0, h0, r0⟩ := hr 0 (by omega)
      obtain ⟨l1, h1, r1⟩ := hr 1 (by omega)
      obtain ⟨l2, h2, r2⟩ := hr 2 (by omega)
      obtain ⟨l3, h3, r3⟩ := hr 3 (by omega)
      obtain ⟨l4, h4, r4⟩ := hr 4 (by omega)
      have hs := statusLoop_ok p clock name st l0 l1 l2 l3 l4 h0 h1 h2 h3 h4
      have hrun : runningJobs p pre.length = l4.JobSummaryList := jobsOf_of_ok p _ l4 r4
      rw [queueLoop, hs]
      simp only
      have hp' : p.JobQueues = (pre ++ [name]) ++ rest := by simp [hp]
      rw [ih (pre ++ [name]) _ hp' (by simp [hq, pairs_append, pairs_singleton])
        (by simp [ticksBefore, ht, hrun])
        (by
          intro k hk1 hk2
          apply hok k
          · simp only [List.length_append, List.length_cons, List.length_nil] at hk1; omega
          · simp only [List.length_append, List.length_cons, List.length_nil] at hk2 ⊢; omega)]
      have e1 : (pre ++ [name]).length = pre.length + 1 := by simp
      have e2 : pre.length + (name :: rest).length = pre.length + 1 + rest.length := by
        simp only [List.length_cons]; omega
      rw [e1, e2]
      rw [Nat.add_zero] at r0
      simp only [List.length_cons, List.append_assoc, List.singleton_append, writesFrom, applyWrites_append, queueWrites, countWrite, hname,
        jobsOf_of_ok p _ _ r0, jobsOf_of_ok p _ _ r1, jobsOf_of_ok p _ _ r2, jobsOf_of_ok p _ _ r3,
        jobsOf_of_ok p _ _ r4, hrun, getLastPoint, ht, statusAt, statuses, List.getD_cons_zero,
        List.getD_cons_succ, Nat.add_zero]

theorem take_pairs (pre rest : List String) (name : String) (j : Nat) (hj : j < 5) :
    (pairs (pre ++ name :: rest)).take (5 * pre.length + j + 1)
      = pairs pre ++ (statuses.take (j + 1)).map (fun s => (name, s)) := by
  have h : pairs (pre ++ name :: rest)
      = pairs pre ++ (statuses.map (fun s => (name, s)) ++ pairs rest) := by
    rw [pairs_append]
    simp [pairs]
  rw [h, List.take_append_eq_append_take, length_pairs,
    List.take_of_length_le (by rw [length_pairs]; omega),
    List.take_append_of_le_length (by simp [statuses]; omega), List.map_take]
  congr 2
  omega

/-- The loop over the queues when request number `k` is the first that fails. -/
theorem queueLoop_err (p : AwsBatchPlugin) (clock : Nat → Int) :
    ∀ (rest pre : List String) (st : Pass), p.JobQueues = pre ++ rest →
      st.queries = pairs pre →
      ∀ (k : Nat) (e : Error), 5 * pre.length ≤ k → k < 5 * (pre.length + rest.length) →
        replyOf p k = .error e →
        (∀ k', 5 * pre.length ≤ k' → k' < k → isOk (replyOf p k') = true) →
        (queueLoop p clock rest st).1 = some e ∧
          (queueLoop p clock rest st).2.queries = (pairs (pre ++ rest)).take (k + 1) := by
  intro rest
  induction rest with
  | nil =>
      intro pre st _ _ k e h1 h2
      simp only [List.length_nil] at h2
      omega
  | cons name rest ih =>
      intro pre st hp hq k e hk1 hk2 hfail hprev
      have hname := queueAt_append p pre rest name hp
      have hlen : st.queries.length = 5 * pre.length := by rw [hq, length_pairs]
      by_cases hk : k < 5 * (pre.length + 1)
      · obtain ⟨j, rfl⟩ : ∃ j, k = 5 * pre.length + j := ⟨k - 5 * pre.length, by omega⟩
        have hj : j < 5 := by omega
        have hf : getListJobs p (st.queries.length + j) name (statusAt j) = .error e := by
          rw [hlen, ← hname, ← replyOf_at p _ j hj]
          exact hfail
        have hpv : ∀ j', j' < j →
            isOk (getListJobs p (st.queries.length + j') name (statusAt j')) = true := by
          intro j' hj'
          rw [hlen, ← hname, ← replyOf_at p _ j' (by omega)]
          exact hprev _ (by omega) (by omega)
        obtain ⟨h1, h2⟩ := statusLoop_err p clock name st j hj e hf hpv
        rw [queueLoop]
        cases hres : statusLoop p clock name statuses st with
        | mk o st' =>
            rw [hres] at h1 h2
            simp only at h1 h2
            subst h1
            simp only
            refine ⟨trivial, ?_⟩
            rw [h2, hq, take_pairs pre rest name j hj]
      · have hr : ∀ j, j < 5 →
            ∃ lj, getListJobs p (st.queries.length + j) name (statusAt j) = .ok lj := by
          intro j hj
          have h := hprev (5 * pre.length + j) (by omega) (by omega)
          obtain ⟨lj, hlj⟩ := (isOk_iff _).1 h
          refine ⟨lj, ?_⟩
          rw [replyOf_at p _ j hj, hname] at hlj
          rw [hlen]
          exact hlj
        obtain ⟨l0, h0⟩ := hr 0 (by omega)
        obtain ⟨l1, h1⟩ := hr 1 (by omega)
        obtain ⟨l2, h2⟩ := hr 2 (by omega)
        obtain ⟨l3, h3⟩ := hr 3 (by omega)
        obtain ⟨l4, h4⟩ := hr 4 (by omega)
        obtain ⟨st', hs, hq'⟩ : ∃ st', statusLoop p clock name statuses st = (none, st') ∧
            st'.queries = st.queries ++ statuses.map (fun s => (name, s)) :=
          ⟨_, statusLoop_ok p clock name st l0 l1 l2 l3 l4 h0 h1 h2 h3 h4, rfl⟩
        rw [queueLoop, hs]
        simp only
        have hp' : p.JobQueues = (pre ++ [name]) ++ rest := by simp [hp]
        have e1 : (pre ++ [name]).length = pre.length + 1 := by simp
        have hih := ih (pre ++ [name]) st' hp' (by simp [hq', hq, pairs_append, pairs_singleton]) k e
          (by rw [e1]; omega)
          (by rw [e1]; simp only [List.length_cons] at hk2; omega) hfail
          (by
            intro k' hk1' hk2'
            exact hprev k' (by rw [e1] at hk1'; omega) hk2')
        simpa using hih

/-! ## Keys -/

theorem split_at_first (c : Char) :
    ∀ (x x' y y' : List Char), c ∉ x → c ∉ x' → x ++ c :: y = x' ++ c :: y' → x = x' ∧ y = y' := by
  intro x
  induction x with
  | nil =>
      intro x' y y' _ hx' h
      cases x' with
      | nil => simpa using h
      | cons a x' =>
          simp only [List.nil_append, List.cons_append, List.cons.injEq] at h
          exact absurd (h.1 ▸ List.mem_cons_self _ _) hx'
  | cons a x ih =>
      intro x' y y' hx hx' h
      cases x' with
      | nil =>
          simp only [List.nil_append, List.cons_append, List.cons.injEq] at h
          exact absurd (h.1 ▸ List.mem_cons_self _ _) hx
      | cons a' x' =>
          simp only [List.cons_append, List.cons.injEq] at h
          obtain ⟨h1, h2⟩ := ih x' y y' (fun hm => hx (List.mem_cons_of_mem _ hm))
            (fun hm => hx' (List.mem_cons_of_mem _ hm)) h.2
          exact ⟨by rw [h.1, h1], h2⟩

theorem split_at_last (c : Char) (x x' y y' : List Char) (hy : c ∉ y) (hy' : c ∉ y')
    (h : x ++ c :: y = x' ++ c :: y') : x = x' ∧ y = y' := by
  have h' := congrArg List.reverse h
  simp only [List.reverse_append, List.reverse_cons, List.append_assoc, List.singleton_append] at h'
  obtain ⟨h1, h2⟩ := split_at_first c y.reverse y'.reverse x.reverse x'.reverse
    (by simpa using hy) (by simpa using hy') h'
  exact ⟨List.reverse_injective h2, List.reverse_injective h1⟩

theorem jobsKey_data (name s : String) :
    (jobsKey name s).data = "aws.batch.jobs.".data ++ (name.data ++ '.' :: s.data) := by
  simp [jobsKey, String.data_append]

theorem runtimeKey_data (name : String) (js : JobSummary) :
    (runtimeKey name js).data
      = "aws.batch.runtime.".data ++ (name.data ++ '.' :: (StringValue js.JobName).data) := by
  simp [runtimeKey, String.data_append]

theorem jobsKey_ne_runtimeKey (name s name' : String) (js : JobSummary) :
    jobsKey name s ≠ runtimeKey name' js := by
  intro h
  have h' := congrArg String.data h
  rw [jobsKey_data, runtimeKey_data] at h'
  simp at h'

theorem not_dot_mem_status (s : String) (hs : s ∈ statuses) : '.' ∉ s.data := by
  simp only [statuses, List.mem_cons, List.mem_singleton, List.not_mem_nil, or_false] at hs
  rcases hs with rfl | rfl | rfl | rfl | rfl <;> decide

theorem jobsKey_inj (name name' s s' : String) (hs : s ∈ statuses) (hs' : s' ∈ statuses)
    (h : jobsKey name s = jobsKey name' s') : name = name' ∧ s = s' := by
  have h' := congrArg String.data h
  rw [jobsKey_data, jobsKey_data] at h'
  obtain ⟨h1, h2⟩ := split_at_last '.' _ _ _ _ (not_dot_mem_status s hs)
    (not_dot_mem_status s' hs') (List.append_cancel_left h')
  exact ⟨String.ext h1, String.ext h2⟩

theorem runtimeKey_inj (name name' : String) (js js' : JobSummary) (hn : '.' ∉ name.data)
    (hn' : '.' ∉ name'.data) (h : runtimeKey name js = runtimeKey name' js') :
    name = name' ∧ StringValue js.JobName = StringValue js'.JobName := by
  have h' := congrArg String.data h
  rw [runtimeKey_data, runtimeKey_data] at h'
  obtain ⟨h1, h2⟩ := split_at_first '.' _ _ _ _ hn hn' (List.append_cancel_left h')
  exact ⟨String.ext h1, String.ext h2⟩

/-! ## The pass as a whole -/

theorem FetchMetrics_ok (p : AwsBatchPlugin) (clock : Nat → Int) (h : allOk p) :
    FetchMetrics p clock =
      { stat := some (applyWrites (writesFrom p clock 0 p.JobQueues.length) [])
        err := none
        queries := pairs p.JobQueues
        ticks := ticksBefore p p.JobQueues.length } := by
  have hq := queueLoop_ok p clock p.JobQueues [] { stat := [], queries := [], ticks := 0 }
    (by simp) (by simp [pairs]) (by simp [ticksBefore])
    (by intro k _ hk; exact h k (by simpa using hk))
  simp only [List.length_nil, Nat.zero_add, List.nil_append] at hq
  simp only [FetchMetrics, hq]

theorem FetchMetrics_err (p : AwsBatchPlugin) (clock : Nat → Int) (k : Nat) (e : Error)
    (h : firstFailure p k e) :
    (FetchMetrics p clock).stat = none ∧ (FetchMetrics p clock).err = some e ∧
      (FetchMetrics p clock).queries = (pairs p.JobQueues).take (k + 1) := by
  obtain ⟨h1, h2⟩ := queueLoop_err p clock p.JobQueues [] { stat := [], queries := [], ticks := 0 }
    (by simp) (by simp [pairs]) k e (by simp) (by simpa using h.1) h.2.1
    (fun k' _ hk' => h.2.2 k' hk')
  simp only [List.nil_append] at h1 h2
  unfold FetchMetrics
  cases hres : queueLoop p clock p.JobQueues { stat := [], queries := [], ticks := 0 } with
  | mk o st =>
      rw [hres] at h1 h2
      simp only at h1 h2
      subst h1
      exact ⟨rfl, rfl, h2⟩

theorem exists_firstFailure (p : AwsBatchPlugin) (h : ¬ allOk p) :
    ∃ k e, firstFailure p k e := by
  classical
  have hex : ∃ k, k < 5 * p.JobQueues.length ∧ isOk (replyOf p k) = false := by
    unfold allOk at h
    push_neg at h
    obtain ⟨k, hk, hne⟩ := h
    exact ⟨k, hk, by simpa using hne⟩
  refine ⟨Nat.find hex, ?_⟩
  obtain ⟨h1, h2⟩ := Nat.find_spec hex
  cases hr : replyOf p (Nat.find hex) with
  | ok lj => rw [hr] at h2; simp [isOk] at h2
  | error e =>
      refine ⟨e, h1, hr, ?_⟩
      intro k' hk'
      have := Nat.find_min hex hk'
      by_contra hc
      exact this ⟨by omega, by simpa using hc⟩

/-! ## The assignments of a successful pass -/

theorem mem_writesFrom (p : AwsBatchPlugin) (clock : Nat → Int) (w : String × ℚ) :
    ∀ (n i : Nat), w ∈ writesFrom p clock i n ↔ ∃ i', i ≤ i' ∧ i' < i + n ∧ w ∈ queueWrites p clock i' := by
  intro n
  induction n with
  | zero => intro i; simp [writesFrom]; intro i' h1 h2; omega
  | succ n ih =>
      intro i
      rw [writesFrom, List.mem_append, ih]
      constructor
      · rintro (h | ⟨i', h1, h2, h3⟩)
        · exact ⟨i, Nat.le_refl _, by omega, h⟩
        · exact ⟨i', by omega, by omega, h3⟩
      · rintro ⟨i', h1, h2, h3⟩
        by_cases hi : i' = i
        · exact Or.inl (hi ▸ h3)
        · exact Or.inr ⟨i', by omega, by omega, h3⟩

theorem mem_runtimeWrites (clock : Nat → Int) (name : String) (w : String × ℚ) :
    ∀ (l : List JobSummary) (t : Nat), w ∈ runtimeWrites clock name l t →
      ∃ js ∈ l, w.1 = runtimeKey name js := by
  intro l
  induction l with
  | nil => intro t h; cases h
  | cons js rest ih =>
      intro t h
      rw [runtimeWrites, List.mem_cons] at h
      rcases h with h | h
      · exact ⟨js, List.mem_cons_self _ _, by rw [h]⟩
      · obtain ⟨js', h1, h2⟩ := ih _ h
        exact ⟨js', List.mem_cons_of_mem _ h1, h2⟩

theorem keys_runtimeWrites (clock : Nat → Int) (name : String) :
    ∀ (l : List JobSummary) (t : Nat),
      (runtimeWrites clock name l t).map Prod.fst = l.map (runtimeKey name) := by
  intro l
  induction l with
  | nil => intro t; rfl
  | cons js rest ih => intro t; simp [runtimeWrites, ih]

theorem mem_queueWrites (p : AwsBatchPlugin) (clock : Nat → Int) (i : Nat) (w : String × ℚ) :
    w ∈ queueWrites p clock i ↔
      (∃ j, j < 5 ∧ w = countWrite p i j) ∨
        w ∈ runtimeWrites clock (queueAt p i) (runningJobs p i) (ticksBefore p i) := by
  unfold queueWrites
  rw [List.mem_append]
  apply or_congr_left
  simp only [List.mem_cons, List.mem_singleton, List.not_mem_nil, or_false]
  constructor
  · rintro (h | h | h | h | h)
    · exact ⟨0, by omega, h⟩
    · exact ⟨1, by omega, h⟩
    · exact ⟨2, by omega, h⟩
    · exact ⟨3, by omega, h⟩
    · exact ⟨4, by omega, h⟩
  · rintro ⟨j, hj, h⟩
    interval_cases j <;> simp [h]

theorem statusAt_mem (j : Nat) (hj : j < 5) : statusAt j ∈ statuses := by
  interval_cases j <;> simp [statusAt, statuses]

theorem exists_statusAt (s : String) (hs : s ∈ statuses) : ∃ j, j < 5 ∧ statusAt j = s := by
  simp only [statuses, List.mem_cons, List.mem_singleton, List.not_mem_nil, or_false] at hs
  rcases hs with rfl | rfl | rfl | rfl | rfl
  · exact ⟨0, by omega, rfl⟩
  · exact ⟨1, by omega, rfl⟩
  · exact ⟨2, by omega, rfl⟩
  · exact ⟨3, by omega, rfl⟩
  · exact ⟨4, by omega, rfl⟩

theorem queueAt_mem (p : AwsBatchPlugin) (i : Nat) (hi : i < p.JobQueues.length) :
    queueAt p i ∈ p.JobQueues := by
  unfold queueAt
  rw [List.getD_eq_getElem?_getD, List.getElem?_eq_getElem hi]
  exact List.getElem_mem hi

theorem exists_queueAt (p : AwsBatchPlugin) (q : String) (hq : q ∈ p.JobQueues) :
    ∃ i, i < p.JobQueues.length ∧ queueAt p i = q := by
  obtain ⟨i, hi, h⟩ := List.getElem_of_mem hq
  refine ⟨i, hi, ?_⟩
  unfold queueAt
  rw [List.getD_eq_getElem?_getD, List.getElem?_eq_getElem hi]
  exact h

/-! ## Rounding to `float64` -/

theorem roundHalfEven_intCast (z : Int) : roundHalfEven (z : ℚ) = z := by
  unfold roundHalfEven
  rw [Int.floor_intCast]
  simp

theorem roundHalfEven_abs_sub_le (y : ℚ) : |(roundHalfEven y : ℚ) - y| ≤ 1 / 2 := by
  have h1 := Int.floor_le y
  have h2 := Int.lt_floor_add_one y
  unfold roundHalfEven
  rw [abs_le]
  split_ifs with ha hb hc
  · constructor <;> linarith
  · push_cast; constructor <;> linarith
  · constructor <;> linarith
  · push_cast; constructor <;> linarith

theorem roundHalfEven_nonneg (y : ℚ) (h : 0 ≤ y) : 0 ≤ roundHalfEven y := by
  have h0 : 0 ≤ ⌊y⌋ := Int.floor_nonneg.2 h
  unfold roundHalfEven
  split_ifs <;> omega

theorem roundHalfEven_nonpos (y : ℚ) (h : y ≤ 0) : roundHalfEven y ≤ 0 := by
  have h1 := Int.floor_le y
  have h0 : ⌊y⌋ ≤ 0 := by
    have : (⌊y⌋ : ℚ) ≤ 0 := le_trans h1 h
    exact_mod_cast this
  unfold roundHalfEven
  split_ifs with ha hb hc
  · exact h0
  · by_contra hc'
    have h3 : ⌊y⌋ = 0 := by omega
    rw [h3] at hb
    simp only [Int.cast_zero, sub_zero] at hb
    linarith
  · exact h0
  · by_contra hc'
    have h3 : ⌊y⌋ = 0 := by omega
    rw [h3] at hc
    simp at hc

/-- When a single integer lies within one half of `y`, rounding gives it. -/
theorem roundHalfEven_eq_of_abs_lt (y : ℚ) (z : Int) (h : |y - z| < 1 / 2) :
    roundHalfEven y = z := by
  have h1 := roundHalfEven_abs_sub_le y
  rw [abs_lt] at h
  rw [abs_le] at h1
  have h2 : ((roundHalfEven y : Int) : ℚ) - z < 1 := by linarith
  have h3 : (-1 : ℚ) < (roundHalfEven y : ℚ) - z := by linarith
  have h4 : roundHalfEven y - z < 1 := by exact_mod_cast h2
  have h5 : -1 < roundHalfEven y - z := by exact_mod_cast h3
  omega

theorem two_zpow_pos (u : Int) : (0 : ℚ) < 2 ^ u := zpow_pos (by norm_num) u

theorem roundFloat64_abs_sub_le (x : ℚ) : |roundFloat64 x - x| ≤ 2 ^ ulpExp x / 2 := by
  have hp := two_zpow_pos (ulpExp x)
  have h := roundHalfEven_abs_sub_le (x / 2 ^ ulpExp x)
  have e : roundFloat64 x - x
      = ((roundHalfEven (x / 2 ^ ulpExp x) : ℚ) - x / 2 ^ ulpExp x) * 2 ^ ulpExp x := by
    unfold roundFloat64
    field_simp
  rw [e, abs_mul, abs_of_pos hp]
  calc |(roundHalfEven (x / 2 ^ ulpExp x) : ℚ) - x / 2 ^ ulpExp x| * 2 ^ ulpExp x
      ≤ 1 / 2 * 2 ^ ulpExp x := mul_le_mul_of_nonneg_right h hp.le
    _ = 2 ^ ulpExp x / 2 := by ring

theorem roundFloat64_nonneg (x : ℚ) (h : 0 ≤ x) : 0 ≤ roundFloat64 x := by
  have hp := two_zpow_pos (ulpExp x)
  have h1 := roundHalfEven_nonneg (x / 2 ^ ulpExp x) (div_nonneg h hp.le)
  unfold roundFloat64
  exact mul_nonneg (by exact_mod_cast h1) hp.le

theorem roundFloat64_nonpos (x : ℚ) (h : x ≤ 0) : roundFloat64 x ≤ 0 := by
  have hp := two_zpow_pos (ulpExp x)
  have h1 := roundHalfEven_nonpos (x / 2 ^ ulpExp x) (div_nonpos_of_nonpos_of_nonneg h hp.le)
  unfold roundFloat64
  exact mul_nonpos_of_nonpos_of_nonneg (by exact_mod_cast h1) hp.le

theorem roundFloat64_zero : roundFloat64 0 = 0 := by
  unfold roundFloat64
  rw [zero_div]
  have := roundHalfEven_intCast 0
  simp only [Int.cast_zero] at this
  rw [this]
  simp

/-- A number that is a whole multiple of the unit in its last place is a `float64`. -/
theorem roundFloat64_of_multiple (x : ℚ) (z : Int) (h : x / 2 ^ ulpExp x = z) :
    roundFloat64 x = x := by
  have hp := two_zpow_pos (ulpExp x)
  unfold roundFloat64
  rw [h, roundHalfEven_intCast, ← h]
  field_simp

theorem ulpExp_of_bounds (x : ℚ) (e : Int) (he : -1022 ≤ e) (h1 : 2 ^ e ≤ |x|)
    (h2 : |x| < 2 ^ (e + 1)) : ulpExp x = e - 52 := by
  have hpos : 0 < |x| := lt_of_lt_of_le (two_zpow_pos e) h1
  have ha : e ≤ Int.log 2 |x| := (Int.zpow_le_iff_le_log (by norm_num) hpos).1 (by exact_mod_cast h1)
  have hb : Int.log 2 |x| < e + 1 :=
    (Int.lt_zpow_iff_log_lt (by norm_num) hpos).1 (by exact_mod_cast h2)
  unfold ulpExp
  have : Int.log 2 |x| = e := by omega
  rw [this, max_eq_left he]

/-- Evaluation of a rounding: the binade of `x` and the nearest multiple of its unit. -/
theorem roundFloat64_eval (x : ℚ) (e z : Int) (he : -1022 ≤ e) (h1 : 2 ^ e ≤ |x|)
    (h2 : |x| < 2 ^ (e + 1)) (hz : |x / 2 ^ (e - 52) - z| < 1 / 2) :
    roundFloat64 x = z * 2 ^ (e - 52) := by
  unfold roundFloat64
  rw [ulpExp_of_bounds x e he h1 h2, roundHalfEven_eq_of_abs_lt _ z hz]

/-- Relative error of a rounding in the normal range: half a unit in the last place. -/
theorem roundFloat64_rel (x : ℚ) (h : 2 ^ (-1022 : Int) ≤ |x|) :
    |roundFloat64 x - x| ≤ |x| * 2 ^ (-53 : Int) := by
  have hpos : 0 < |x| := lt_of_lt_of_le (two_zpow_pos _) h
  have ha : (-1022 : Int) ≤ Int.log 2 |x| :=
    (Int.zpow_le_iff_le_log (by norm_num) hpos).1 (by exact_mod_cast h)
  have hb : ((2 : ℕ) : ℚ) ^ Int.log 2 |x| ≤ |x| := Int.zpow_log_le_self (by norm_num) hpos
  have hu : ulpExp x = Int.log 2 |x| - 52 := by
    unfold ulpExp
    rw [max_eq_left ha]
  have h3 := roundFloat64_abs_sub_le x
  rw [hu, zpow_sub₀ (by norm_num)] at h3
  have hb' : (2 : ℚ) ^ Int.log 2 |x| ≤ |x| := by exact_mod_cast hb
  calc |roundFloat64 x - x| ≤ 2 ^ Int.log 2 |x| / 2 ^ (52 : Int) / 2 := h3
    _ = 2 ^ Int.log 2 |x| * 2 ^ (-53 : Int) := by norm_num; ring
    _ ≤ |x| * 2 ^ (-53 : Int) := mul_le_mul_of_nonneg_right hb' (two_zpow_pos _).le

/-- Integers up to 2^53 in magnitude are `float64`: their conversion is exact. -/
theorem roundFloat64_intCast (n : Int) (h : |n| ≤ 9007199254740992) :
    roundFloat64 (n : ℚ) = n := by
  by_cases h0 : n = 0
  · subst h0
    simpa using roundFloat64_zero
  have habs : (1 : ℚ) ≤ |(n : ℚ)| := by
    have : (1 : Int) ≤ |n| := Int.one_le_abs h0
    exact_mod_cast this
  have hpos : 0 < |(n : ℚ)| := lt_of_lt_of_le one_pos habs
  have hle : |(n : ℚ)| ≤ 9007199254740992 := by exact_mod_cast h
  have ha : (0 : Int) ≤ Int.log 2 |(n : ℚ)| :=
    (Int.zpow_le_iff_le_log (by norm_num) hpos).1 (by simpa using habs)
  have hb : Int.log 2 |(n : ℚ)| < 54 :=
    (Int.lt_zpow_iff_log_lt (by norm_num) hpos).1 (by
      have : |(n : ℚ)| < 2 ^ (54 : Int) := lt_of_le_of_lt hle (by norm_num)
      exact_mod_cast this)
  have hu : ulpExp (n : ℚ) = Int.log 2 |(n : ℚ)| - 52 := by
    unfold ulpExp
    rw [max_eq_left (by omega)]
  by_cases he : Int.log 2 |(n : ℚ)| ≤ 52
  · obtain ⟨k, hk⟩ : ∃ k : ℕ, (k : Int) = 52 - Int.log 2 |(n : ℚ)| :=
      ⟨(52 - Int.log 2 |(n : ℚ)|).toNat, Int.toNat_of_nonneg (by omega)⟩
    apply roundFloat64_of_multiple (n : ℚ) (n * 2 ^ k)
    have e1 : ulpExp (n : ℚ) = -(k : Int) := by rw [hu, hk]; ring
    rw [e1, zpow_neg, zpow_natCast]
    push_cast
    field_simp
  · have he' : Int.log 2 |(n : ℚ)| = 53 := by omega
    have hge : (2 : ℚ) ^ (53 : Int) ≤ |(n : ℚ)| := by
      have := Int.zpow_log_le_self (R := ℚ) (b := 2) (by norm_num) hpos
      rw [he'] at this
      exact_mod_cast this
    have heq : |(n : ℚ)| = 9007199254740992 := le_antisymm hle (by norm_num at hge; exact hge)
    have hn : |n| = 9007199254740992 := by exact_mod_cast heq
    have e1 : ulpExp (n : ℚ) = 1 := by rw [hu, he']; norm_num
    rcases abs_eq (by norm_num : (0 : Int) ≤ 9007199254740992) |>.1 hn with h' | h'
    · apply roundFloat64_of_multiple (n : ℚ) 4503599627370496
      rw [e1, h']
      norm_num
    · apply roundFloat64_of_multiple (n : ℚ) (-4503599627370496)
      rw [e1, h']
      norm_num

theorem float64OfInt_exact (n : Int) (h : |n| ≤ 9007199254740992) : float64OfInt n = n :=
  roundFloat64_intCast n h

/-! ## Accuracy of `Duration.Minutes` -/

/-- The sum `q + float64(y)` rounded, for `q` and `y` of the same sign: within 2^-51 of `q + y`
in relative terms. -/
theorem roundFloat64_add_round (q y : ℚ) (h : (0 ≤ q ∧ 0 ≤ y) ∨ (q ≤ 0 ∧ y ≤ 0))
    (hy : 2 ^ (-1021 : Int) ≤ |y|) :
    |roundFloat64 (q + roundFloat64 y) - (q + y)| ≤ |q + y| * 2 ^ (-51 : Int) := by
  have hsmall : (2 : ℚ) ^ (-1022 : Int) ≤ 2 ^ (-1021 : Int) :=
    zpow_le_zpow_right₀ (by norm_num) (by norm_num)
  have hY := roundFloat64_rel y (le_trans hsmall hy)
  have hhalf : (2 : ℚ) ^ (-1021 : Int) = 2 * 2 ^ (-1022 : Int) := by
    rw [show (-1021 : Int) = 1 + (-1022) from rfl, zpow_add₀ (by norm_num)]
    norm_num
  have hp := two_zpow_pos (-1022)
  have e53 : (2 : ℚ) ^ (-53 : Int) = 1 / 9007199254740992 := by norm_num
  have e51 : (2 : ℚ) ^ (-51 : Int) = 1 / 2251799813685248 := by norm_num
  rw [e53] at hY
  rw [e51]
  rcases h with ⟨hq, hy0⟩ | ⟨hq, hy0⟩
  · have hYn := roundFloat64_nonneg y hy0
    rw [abs_of_nonneg hy0] at hy hY
    rw [abs_le] at hY
    have hs : 2 ^ (-1022 : Int) ≤ |q + roundFloat64 y| := by
      rw [abs_of_nonneg (by linarith)]
      linarith
    have hv := roundFloat64_rel (q + roundFloat64 y) hs
    rw [e53, abs_of_nonneg (by linarith : (0 : ℚ) ≤ q + roundFloat64 y), abs_le] at hv
    rw [abs_of_nonneg (by linarith : (0 : ℚ) ≤ q + y), abs_le]
    constructor <;> linarith
  · have hYn := roundFloat64_nonpos y hy0
    rw [abs_of_nonpos hy0] at hy hY
    rw [abs_le] at hY
    have hs : 2 ^ (-1022 : Int) ≤ |q + roundFloat64 y| := by
      rw [abs_of_nonpos (by linarith)]
      linarith
    have hv := roundFloat64_rel (q + roundFloat64 y) hs
    rw [e53, abs_of_nonpos (by linarith : q + roundFloat64 y ≤ 0), abs_le] at hv
    rw [abs_of_nonpos (by linarith : q + y ≤ 0), abs_le]
    constructor <;> linarith

/-- Quotient and remainder of Go's truncated division by `Minute`. -/
theorem tdiv_tmod_Minute (d : Int) :
    Int.tmod d Minute + 60000000000 * Int.tdiv d Minute = d ∧
      ((0 ≤ Int.tdiv d Minute ∧ 0 ≤ Int.tmod d Minute ∧ Int.tmod d Minute < 60000000000) ∨
        (Int.tdiv d Minute ≤ 0 ∧ Int.tmod d Minute ≤ 0 ∧ -60000000000 < Int.tmod d Minute)) := by
  have hA := Int.tmod_add_tdiv d Minute
  unfold Minute at *
  refine ⟨hA, ?_⟩
  rcases le_or_lt 0 d with hd | hd
  · left
    have h1 : Int.tdiv d 60000000000 = d / 60000000000 := Int.tdiv_eq_ediv hd (by norm_num)
    rw [h1] at hA ⊢
    omega
  · right
    have h1 : Int.tdiv d 60000000000 = -((-d) / 60000000000) := by
      have := Int.neg_tdiv (-d) 60000000000
      rw [neg_neg] at this
      rw [this, Int.tdiv_eq_ediv (by omega) (by norm_num)]
    rw [h1] at hA ⊢
    omega

/-- The value of `Duration.Minutes` is the exact number of minutes up to `float64` rounding: a
relative error of at most 2^-51. -/
theorem Minutes_approx (d : Int) (h1 : minInt64 ≤ d) (h2 : d ≤ maxInt64) :
    |Minutes d - (d : ℚ) / 60000000000| ≤ |(d : ℚ) / 60000000000| * 2 ^ (-51 : Int) := by
  obtain ⟨hA, hsign⟩ := tdiv_tmod_Minute d
  unfold minInt64 at h1
  unfold maxInt64 at h2
  have hq : |Int.tdiv d Minute| ≤ 9007199254740992 := by
    rw [abs_le]
    rcases hsign with ⟨a, b, c⟩ | ⟨a, b, c⟩ <;> constructor <;> omega
  have hr : |Int.tmod d Minute| ≤ 9007199254740992 := by
    rw [abs_le]
    rcases hsign with ⟨a, b, c⟩ | ⟨a, b, c⟩ <;> constructor <;> omega
  have hd : (d : ℚ) / 60000000000
      = (Int.tdiv d Minute : ℚ) + (Int.tmod d Minute : ℚ) / 60000000000 := by
    have : (d : ℚ) = (Int.tmod d Minute : ℚ) + 60000000000 * (Int.tdiv d Minute : ℚ) := by
      exact_mod_cast hA.symm
    rw [this]
    field_simp
    ring
  unfold Minutes float64Add float64Div
  rw [float64OfInt_exact _ hq, float64OfInt_exact _ hr, hd]
  by_cases hr0 : Int.tmod d Minute = 0
  · rw [hr0]
    simp only [Int.cast_zero, zero_div, roundFloat64_zero, add_zero]
    rw [roundFloat64_intCast _ hq]
    simp only [sub_self, abs_zero]
    exact mul_nonneg (abs_nonneg _) (two_zpow_pos _).le
  · apply roundFloat64_add_round
    · rcases hsign with ⟨a, b, c⟩ | ⟨a, b, c⟩
      · left
        exact ⟨by exact_mod_cast a, div_nonneg (by exact_mod_cast b) (by norm_num)⟩
      · right
        exact ⟨by exact_mod_cast a, div_nonpos_of_nonpos_of_nonneg (by exact_mod_cast b) (by norm_num)⟩
    · have h1r : (1 : ℚ) ≤ |(Int.tmod d Minute : ℚ)| := by
        have : (1 : Int) ≤ |Int.tmod d Minute| := Int.one_le_abs hr0
        exact_mod_cast this
      rw [abs_div, abs_of_pos (by norm_num : (0 : ℚ) < 60000000000), le_div_iff₀ (by norm_num)]
      have hs : (2 : ℚ) ^ (-1021 : Int) ≤ 2 ^ (-36 : Int) :=
        zpow_le_zpow_right₀ (by norm_num) (by norm_num)
      have e36 : (2 : ℚ) ^ (-36 : Int) = 1 / 68719476736 := by norm_num
      rw [e36] at hs
      calc (2 : ℚ) ^ (-1021 : Int) * 60000000000
          ≤ 1 / 68719476736 * 60000000000 := mul_le_mul_of_nonneg_right hs (by norm_num)
        _ ≤ 1 := by norm_num
        _ ≤ |(Int.tmod d Minute : ℚ)| := h1r

/-- A whole number of minutes is returned exactly. -/
theorem Minutes_of_multiple (n : Int) (h : |n| ≤ 9007199254740992) :
    Minutes (60000000000 * n) = n := by
  have hq : Int.tdiv (60000000000 * n) Minute = n := by
    unfold Minute
    exact Int.mul_tdiv_cancel_left n (by norm_num)
  have hr : Int.tmod (60000000000 * n) Minute = 0 := by
    have := Int.tmod_add_tdiv (60000000000 * n) Minute
    rw [hq] at this
    unfold Minute at this ⊢
    omega
  unfold Minutes float64Add float64Div
  rw [hq, hr, float64OfInt_exact n h, float64OfInt_exact 0 (by norm_num)]
  simp only [Int.cast_zero, zero_div, roundFloat64_zero, add_zero]
  exact roundFloat64_intCast n h

/-- The largest duration in minutes: about 153722867.28. -/
theorem Minutes_maxInt64 : Minutes maxInt64 = 2579041748511209 / 16777216 := by
  have hq : Int.tdiv maxInt64 Minute = 153722867 := by decide
  have hr : Int.tmod maxInt64 Minute = 16854775807 := by decide
  unfold Minutes float64Add float64Div
  rw [hq, hr, float64OfInt_exact _ (by norm_num), float64OfInt_exact _ (by norm_num)]
  have hY : roundFloat64 (((16854775807 : Int) : ℚ) / 60000000000)
      = ((5060477469587897 : Int) : ℚ) * 2 ^ ((-2 : Int) - 52) := by
    apply roundFloat64_eval _ (-2) _ (by norm_num)
    · rw [abs_of_pos (by norm_num)]; norm_num
    · rw [abs_of_pos (by norm_num)]; norm_num
    · rw [abs_lt]; norm_num
  rw [hY]
  have hv : roundFloat64 (((153722867 : Int) : ℚ)
        + ((5060477469587897 : Int) : ℚ) * 2 ^ ((-2 : Int) - 52))
      = ((5158083497022418 : Int) : ℚ) * 2 ^ ((27 : Int) - 52) := by
    apply roundFloat64_eval _ 27 _ (by norm_num)
    · rw [abs_of_pos (by norm_num)]; norm_num
    · rw [abs_of_pos (by norm_num)]; norm_num
    · rw [abs_lt]; norm_num
  rw [hv]
  norm_num

/-- One second in minutes: the `float64` nearest to 1/60. -/
theorem Minutes_second : Minutes 1000000000 = 4803839602528529 / 288230376151711744 := by
  have hq : Int.tdiv 1000000000 Minute = 0 := by decide
  have hr : Int.tmod 1000000000 Minute = 1000000000 := by decide
  unfold Minutes float64Add float64Div
  rw [hq, hr, float64OfInt_exact _ (by norm_num), float64OfInt_exact _ (by norm_num)]
  have hY : roundFloat64 (((1000000000 : Int) : ℚ) / 60000000000)
      = ((4803839602528529 : Int) : ℚ) * 2 ^ ((-6 : Int) - 52) := by
    apply roundFloat64_eval _ (-6) _ (by norm_num)
    · rw [abs_of_pos (by norm_num)]; norm_num
    · rw [abs_of_pos (by norm_num)]; norm_num
    · rw [abs_lt]; norm_num
  rw [hY]
  have hv : roundFloat64 (((0 : Int) : ℚ)
        + ((4803839602528529 : Int) : ℚ) * 2 ^ ((-6 : Int) - 52))
      = ((4803839602528529 : Int) : ℚ) * 2 ^ ((-6 : Int) - 52) := by
    apply roundFloat64_eval _ (-6) _ (by norm_num)
    · rw [abs_of_pos (by norm_num)]; norm_num
    · rw [abs_of_pos (by norm_num)]; norm_num
    · rw [abs_lt]; norm_num
  rw [hv]
  norm_num

/-! ## The map of a successful pass -/

theorem stat_of_allOk (p : AwsBatchPlugin) (clock : Nat → Int) (h : allOk p) :
    (FetchMetrics p clock).stat
      = some (applyWrites (writesFrom p clock 0 p.JobQueues.length) []) := by
  rw [FetchMetrics_ok p clock h]

theorem writesFrom_add (p : AwsBatchPlugin) (clock : Nat → Int) :
    ∀ (m n a : Nat), writesFrom p clock a (m + n)
      = writesFrom p clock a m ++ writesFrom p clock (a + m) n := by
  intro m
  induction m with
  | zero => intro n a; simp [writesFrom]
  | succ m ih =>
      intro n a
      have e : m + 1 + n = (m + n) + 1 := by omega
      rw [e, writesFrom, writesFrom, ih, List.append_assoc]
      congr 3
      omega

theorem runtimeWrites_append (clock : Nat → Int) (name : String) :
    ∀ (l₁ l₂ : List JobSummary) (t : Nat), runtimeWrites clock name (l₁ ++ l₂) t
      = runtimeWrites clock name l₁ t ++ runtimeWrites clock name l₂ (t + l₁.length) := by
  intro l₁
  induction l₁ with
  | nil => intro l₂ t; simp [runtimeWrites]
  | cons js l₁ ih =>
      intro l₂ t
      have e : t + 1 + l₁.length = t + (l₁.length + 1) := by omega
      rw [List.cons_append, runtimeWrites, runtimeWrites, ih, List.length_cons, e, List.cons_append]

/-- A runtime key never is the key of a count assignment. -/
theorem countWrite_key_ne (p : AwsBatchPlugin) (i j : Nat) (name : String) (js : JobSummary) :
    (countWrite p i j).1 ≠ runtimeKey name js :=
  jobsKey_ne_runtimeKey _ _ _ _

/-- The entry of a RUNNING job whose key no later job of the pass writes. -/
theorem runtime_entry (p : AwsBatchPlugin) (clock : Nat → Int) (i : Nat)
    (hi : i < p.JobQueues.length) (l₁ l₂ : List JobSummary) (js : JobSummary)
    (hsplit : runningJobs p i = l₁ ++ js :: l₂)
    (hl₂ : ∀ js' ∈ l₂, runtimeKey (queueAt p i) js' ≠ runtimeKey (queueAt p i) js)
    (hlater : ∀ i', i < i' → i' < p.JobQueues.length → ∀ js' ∈ runningJobs p i',
      runtimeKey (queueAt p i') js' ≠ runtimeKey (queueAt p i) js) :
    (applyWrites (writesFrom p clock 0 p.JobQueues.length) []).get? (runtimeKey (queueAt p i) js)
      = some (getRuntime (clock (ticksBefore p i + l₁.length)) js) := by
  obtain ⟨n, hn⟩ : ∃ n, p.JobQueues.length = i + (1 + n) := ⟨p.JobQueues.length - i - 1, by omega⟩
  have hW : writesFrom p clock 0 p.JobQueues.length
      = (writesFrom p clock 0 i
          ++ ([countWrite p i 0, countWrite p i 1, countWrite p i 2, countWrite p i 3,
              countWrite p i 4] ++ runtimeWrites clock (queueAt p i) l₁ (ticksBefore p i)))
        ++ (runtimeKey (queueAt p i) js, getRuntime (clock (ticksBefore p i + l₁.length)) js)
          :: (runtimeWrites clock (queueAt p i) l₂ (ticksBefore p i + l₁.length + 1)
              ++ writesFrom p clock (i + 1) n) := by
    rw [hn, writesFrom_add, writesFrom_add]
    simp only [Nat.zero_add, writesFrom, queueWrites, hsplit, runtimeWrites_append, runtimeWrites,
      List.append_assoc, List.cons_append, List.nil_append, List.append_nil]
  rw [hW]
  apply get?_applyWrites_last
  intro w hw
  rcases List.mem_append.1 hw with h | h
  · obtain ⟨js', hjs', hk⟩ := mem_runtimeWrites clock _ w _ _ h
    rw [hk]
    exact hl₂ js' hjs'
  · obtain ⟨i', h1, h2, h3⟩ := (mem_writesFrom p clock w n (i + 1)).1 h
    rcases (mem_queueWrites p clock i' w).1 h3 with ⟨j, _, hj⟩ | h4
    · rw [hj]
      exact countWrite_key_ne p i' j _ _
    · obtain ⟨js', hjs', hk⟩ := mem_runtimeWrites clock _ w _ _ h4
      rw [hk]
      exact hlater i' (by omega) (by omega) js' hjs'

/-- The entry of a count metric whose queue is not configured again later. -/
theorem count_entry (p : AwsBatchPlugin) (clock : Nat → Int) (i j : Nat)
    (hi : i < p.JobQueues.length) (hj : j < 5) (v : ℚ)
    (hv : ∀ i', i' < p.JobQueues.length → queueAt p i' = queueAt p i →
      (countWrite p i' j).2 = v) :
    (applyWrites (writesFrom p clock 0 p.JobQueues.length) []).get?
        (jobsKey (queueAt p i) (statusAt j)) = some v := by
  apply get?_applyWrites_const
  · intro w hw hk
    obtain ⟨i', _, h2, h3⟩ := (mem_writesFrom p clock w _ 0).1 hw
    rcases (mem_queueWrites p clock i' w).1 h3 with ⟨j', hj', hw'⟩ | h4
    · rw [hw'] at hk ⊢
      obtain ⟨e1, e2⟩ := jobsKey_inj _ _ _ _ (statusAt_mem j' hj') (statusAt_mem j hj) hk
      have ej : j' = j := by
        interval_cases j' <;> interval_cases j <;> first | rfl | (exact absurd e2 (by decide))
      subst ej
      exact hv i' (by omega) e1
    · obtain ⟨js', _, hk'⟩ := mem_runtimeWrites clock _ w _ _ h4
      rw [hk'] at hk
      exact absurd hk.symm (jobsKey_ne_runtimeKey _ _ _ _)
  · right
    refine ⟨countWrite p i j, ?_, rfl⟩
    exact (mem_writesFrom p clock _ _ 0).2 ⟨i, by omega, by omega,
      (mem_queueWrites p clock i _).2 (Or.inl ⟨j, hj, rfl⟩)⟩

/-! ## Facts about the example configurations -/

theorem allOk_example : allOk (mkPlugin exampleClient ["q1"]) := by
  intro k hk
  simp only [mkPlugin, List.length_cons, List.length_nil] at hk
  interval_cases k <;> rfl

theorem firstFailure_example :
    firstFailure (mkPlugin exampleClient ["q1", "q2"]) 5 "JobQueue not found" := by
  refine ⟨by simp [mkPlugin], rfl, ?_⟩
  intro k hk
  interval_cases k <;> rfl

theorem runningJobs_example :
    runningJobs (mkPlugin exampleClient ["q1"]) 0 = [] ++ ⟨some "job", some 1700000000000⟩ :: [] :=
  rfl

/-! ## Count metrics -/

/-- C1: on a pass whose requests all succeed, for a configured queue `Q` and a tracked status
`S` for which the service returns `N` job summaries, the map returned by `FetchMetrics` holds
`float64(N)` at the key `"aws.batch.jobs." ++ Q ++ "." ++ S`, whatever the other queues and the
job names are; the conversion is exact (the value is `N` itself, 0 included) for every `N` up
to 2^53. -/
theorem count_metric_value (p : AwsBatchPlugin) (clock : Nat → Int) (Q S : String) (N : Nat)
    (hall : allOk p) (hQ : Q ∈ p.JobQueues) (hS : S ∈ statuses)
    (hN : ∀ k lj, p.Batch k Q S = .ok lj → lj.JobSummaryList.length = N) :
    ∃ m, (FetchMetrics p clock).stat = some m ∧
      m.get? ("aws.batch.jobs." ++ Q ++ "." ++ S) = some (float64OfInt N) ∧
      (N ≤ 9007199254740992 → m.get? ("aws.batch.jobs." ++ Q ++ "." ++ S) = some (N : ℚ)) := by
  obtain ⟨i, hi, rfl⟩ := exists_queueAt p Q hQ
  obtain ⟨j, hj, rfl⟩ := exists_statusAt S hS
  have hget : (applyWrites (writesFrom p clock 0 p.JobQueues.length) []).get?
      (jobsKey (queueAt p i) (statusAt j)) = some (float64OfInt N) := by
    apply count_entry p clock i j hi hj
    intro i' hi' hq
    have hok := hall (5 * i' + j) (by omega)
    obtain ⟨lj, hlj⟩ := (isOk_iff _).1 hok
    have hjobs := jobsOf_of_ok p _ lj hlj
    rw [replyOf_at p i' j hj, hq] at hlj
    unfold getListJobs at hlj
    cases hb : p.Batch (5 * i' + j) (queueAt p i) (statusAt j) with
    | error e => rw [hb] at hlj; cases hlj
    | ok resp =>
        rw [hb] at hlj
        simp only [Except.ok.injEq] at hlj
        have := hN _ _ hb
        simp only [countWrite, hjobs, ← hlj, this]
  refine ⟨_, stat_of_allOk p clock hall, hget, ?_⟩
  intro hle
  have : float64OfInt (N : Int) = ((N : Int) : ℚ) :=
    float64OfInt_exact N (by rw [abs_of_nonneg (by omega)]; exact_mod_cast hle)
  rw [show ("aws.batch.jobs." ++ queueAt p i ++ "." ++ statusAt j)
      = jobsKey (queueAt p i) (statusAt j) from rfl, hget]
  simpa using this

/-- Witness of C1: the PENDING count of `q1`, with no PENDING job, is present and 0. -/
theorem count_metric_value_witness :
    ∃ m, (FetchMetrics (mkPlugin exampleClient ["q1"]) (constClock 1700000300000000000)).stat = some m ∧
      m.get? ("aws.batch.jobs." ++ "q1" ++ "." ++ "PENDING") = some (float64OfInt (0 : Nat)) ∧
      m.get? ("aws.batch.jobs." ++ "q1" ++ "." ++ "PENDING") = some ((0 : Nat) : ℚ) := by
  obtain ⟨m, h1, h2, h3⟩ := count_metric_value (mkPlugin exampleClient ["q1"])
    (constClock 1700000300000000000) "q1" "PENDING" 0
    allOk_example (by simp [mkPlugin]) (by simp [statuses])
    (by
      intro k lj h
      simp only [mkPlugin, exampleClient] at h
      simp at h
      rw [← h]
      rfl)
  exact ⟨m, h1, h2, h3 (by norm_num)⟩

/-! ## Errors -/

/-- C2: `FetchMetrics` returns an error exactly when some request of the pass fails; it then
returns the error of the first failing request of the nested enumeration together with a nil
map, whatever was queried successfully before; when no request fails it returns a map and a
nil error. -/
theorem FetchMetrics_error_policy (p : AwsBatchPlugin) (clock : Nat → Int) :
    ((∃ e, (FetchMetrics p clock).err = some e) ↔
        ∃ k, k < 5 * p.JobQueues.length ∧ isOk (replyOf p k) = false) ∧
      (∀ k e, firstFailure p k e →
        (FetchMetrics p clock).err = some e ∧ (FetchMetrics p clock).stat = none) ∧
      (allOk p → (FetchMetrics p clock).err = none ∧ ∃ m, (FetchMetrics p clock).stat = some m) := by
  have h3 : allOk p → (FetchMetrics p clock).err = none ∧ ∃ m, (FetchMetrics p clock).stat = some m := by
    intro hall
    rw [FetchMetrics_ok p clock hall]
    exact ⟨rfl, _, rfl⟩
  have h2 : ∀ k e, firstFailure p k e →
      (FetchMetrics p clock).err = some e ∧ (FetchMetrics p clock).stat = none := by
    intro k e hf
    obtain ⟨a, b, _⟩ := FetchMetrics_err p clock k e hf
    exact ⟨b, a⟩
  refine ⟨?_, h2, h3⟩
  constructor
  · rintro ⟨e, he⟩
    by_contra hc
    have hall : allOk p := by
      intro k hk
      by_contra hk'
      exact hc ⟨k, hk, by simpa using hk'⟩
    rw [(h3 hall).1] at he
    cases he
  · rintro ⟨k, hk, hf⟩
    have hna : ¬ allOk p := fun hall => by
      rw [hall k hk] at hf
      cases hf
    obtain ⟨k', e, hf'⟩ := exists_firstFailure p hna
    exact ⟨e, (h2 k' e hf').1⟩

/-- Witness of C2: `q1` is queried successfully, then the first request for `q2` fails. -/
theorem FetchMetrics_error_policy_witness :
    firstFailure (mkPlugin exampleClient ["q1", "q2"]) 5 "JobQueue not found" ∧
      (FetchMetrics (mkPlugin exampleClient ["q1", "q2"]) (constClock 0)).err
        = some "JobQueue not found" ∧
      (FetchMetrics (mkPlugin exampleClient ["q1", "q2"]) (constClock 0)).stat = none :=
  ⟨firstFailure_example,
    (FetchMetrics_error_policy (mkPlugin exampleClient ["q1", "q2"]) (constClock 0)).2.1 5
      "JobQueue not found" firstFailure_example⟩

/-! ## No queue -/

/-- C6: with an empty queue list `FetchMetrics` returns the empty map and a nil error, and
sends no request to the batch service. -/
theorem FetchMetrics_no_queue (p : AwsBatchPlugin) (clock : Nat → Int) (h : p.JobQueues = []) :
    (FetchMetrics p clock).stat = some [] ∧ (FetchMetrics p clock).err = none ∧
      (FetchMetrics p clock).queries = [] := by
  simp [FetchMetrics, h, queueLoop]

/-- Witness of C6. -/
theorem FetchMetrics_no_queue_witness :
    (FetchMetrics (mkPlugin exampleClient []) (constClock 0)).stat = some [] ∧
      (FetchMetrics (mkPlugin exampleClient []) (constClock 0)).err = none ∧
      (FetchMetrics (mkPlugin exampleClient []) (constClock 0)).queries = [] :=
  FetchMetrics_no_queue (mkPlugin exampleClient []) (constClock 0) rfl

/-! ## The graph schema -/

/-- C7: for every plugin value `GraphDefinition` returns the same schema of exactly two groups:
`aws.batch.jobs.#`, of unit `integer`, with the five statuses in order as metrics, each labelled
by its name, and `aws.batch.runtime.#`, of unit `float`, with the single wildcard metric `*`
labelled by the pattern `%2`. -/
theorem GraphDefinition_schema (p : AwsBatchPlugin) :
    (GraphDefinition p).map Prod.fst = ["aws.batch.jobs.#", "aws.batch.runtime.#"] ∧
      (∃ g, (GraphDefinition p).lookup "aws.batch.jobs.#" = some g ∧ g.Unit = "integer" ∧
        g.Metrics.map Metrics.Name = ["SUBMITTED", "PENDING", "RUNNABLE", "STARTING", "RUNNING"] ∧
        g.Metrics.map Metrics.Label = g.Metrics.map Metrics.Name) ∧
      (∃ g, (GraphDefinition p).lookup "aws.batch.runtime.#" = some g ∧ g.Unit = "float" ∧
        g.Metrics = [{ Name := "*", Label := "%2" }]) ∧
      ∀ p' : AwsBatchPlugin, GraphDefinition p' = GraphDefinition p := by
  refine ⟨rfl, ⟨_, rfl, rfl, rfl, rfl⟩, ⟨_, rfl, rfl, rfl⟩, fun _ => rfl⟩

/-! ## The requests of a pass -/

theorem pairs_getElem? : ∀ (qs : List String) (k : Nat), k < 5 * qs.length →
    (pairs qs)[k]? = some (qs.getD (k / 5) "", statusAt (k % 5)) := by
  intro qs
  induction qs with
  | nil => intro k hk; simp at hk
  | cons q qs ih =>
      intro k hk
      have hp : pairs (q :: qs) = statuses.map (fun s => (q, s)) ++ pairs qs := by
        simp [pairs]
      rw [hp]
      by_cases h5 : k < 5
      · rw [List.getElem?_append_left (by simpa [statuses] using h5)]
        interval_cases k <;> rfl
      · rw [List.getElem?_append_right (by simp [statuses]; omega)]
        have hl : (statuses.map (fun s => (q, s))).length = 5 := by simp [statuses]
        rw [hl, ih (k - 5) (by simp only [List.length_cons] at hk; omega)]
        obtain ⟨k', rfl⟩ : ∃ k', k = k' + 5 := ⟨k - 5, by omega⟩
        have e1 : (k' + 5) / 5 = k' / 5 + 1 := by omega
        have e2 : (k' + 5) % 5 = k' % 5 := by omega
        simp [e1, e2]

/-- C9: the requests of a pass are a prefix of the nested enumeration (queues in configuration
order, statuses in the order SUBMITTED, PENDING, RUNNABLE, STARTING, RUNNING, request number `k`
being the one for queue `k / 5` and status `k % 5`): the whole enumeration, of 5 requests per
configured queue, when every request succeeds, and its first `k + 1` requests when request number
`k` is the first to fail, so that the failing request is the last one sent. -/
theorem query_sequence (p : AwsBatchPlugin) (clock : Nat → Int) :
    (FetchMetrics p clock).queries <+: pairs p.JobQueues ∧
      (∀ k, k < 5 * p.JobQueues.length →
        (pairs p.JobQueues)[k]? = some (queueAt p (k / 5), statusAt (k % 5))) ∧
      (allOk p → (FetchMetrics p clock).queries = pairs p.JobQueues ∧
        (FetchMetrics p clock).queries.length = 5 * p.JobQueues.length) ∧
      (∀ k e, firstFailure p k e →
        (FetchMetrics p clock).queries = (pairs p.JobQueues).take (k + 1) ∧
        (FetchMetrics p clock).queries.length = k + 1 ∧
        (FetchMetrics p clock).queries.getLast? = some (queueAt p (k / 5), statusAt (k % 5))) := by
  have h3 : allOk p → (FetchMetrics p clock).queries = pairs p.JobQueues ∧
      (FetchMetrics p clock).queries.length = 5 * p.JobQueues.length := by
    intro hall
    rw [FetchMetrics_ok p clock hall]
    exact ⟨rfl, length_pairs _⟩
  have h2 : ∀ k, k < 5 * p.JobQueues.length →
      (pairs p.JobQueues)[k]? = some (queueAt p (k / 5), statusAt (k % 5)) :=
    fun k hk => pairs_getElem? p.JobQueues k hk
  have h4 : ∀ k e, firstFailure p k e →
      (FetchMetrics p clock).queries = (pairs p.JobQueues).take (k + 1) ∧
      (FetchMetrics p clock).queries.length = k + 1 ∧
      (FetchMetrics p clock).queries.getLast? = some (queueAt p (k / 5), statusAt (k % 5)) := by
    intro k e hf
    obtain ⟨_, _, hq⟩ := FetchMetrics_err p clock k e hf
    have hk := hf.1
    have hlen : ((pairs p.JobQueues).take (k + 1)).length = k + 1 := by
      rw [List.length_take, length_pairs]
      omega
    refine ⟨hq, by rw [hq, hlen], ?_⟩
    rw [hq, List.getLast?_eq_getElem?, hlen, List.getElem?_take_of_lt (by omega)]
    exact h2 k hk
  refine ⟨?_, h2, h3, h4⟩
  by_cases hall : allOk p
  · rw [(h3 hall).1]
  · obtain ⟨k, e, hf⟩ := exists_firstFailure p hall
    rw [(h4 k e hf).1]
    exact List.take_prefix _ _

/-- Witness of C9: after the five requests for `q1`, the first request for `q2` fails and is the
last one sent. -/
theorem query_sequence_witness :
    firstFailure (mkPlugin exampleClient ["q1", "q2"]) 5 "JobQueue not found" ∧
      (FetchMetrics (mkPlugin exampleClient ["q1", "q2"]) (constClock 0)).queries
        = (pairs (mkPlugin exampleClient ["q1", "q2"]).JobQueues).take (5 + 1) ∧
      (FetchMetrics (mkPlugin exampleClient ["q1", "q2"]) (constClock 0)).queries.length = 5 + 1 ∧
      (FetchMetrics (mkPlugin exampleClient ["q1", "q2"]) (constClock 0)).queries.getLast?
        = some (queueAt (mkPlugin exampleClient ["q1", "q2"]) (5 / 5), statusAt (5 % 5)) :=
  ⟨firstFailure_example,
    (query_sequence (mkPlugin exampleClient ["q1", "q2"]) (constClock 0)).2.2.2 5
      "JobQueue not found" firstFailure_example⟩

/-! ## Runtime keys -/

/-- C10: runtime keys determine the queue and the job name when queue names contain no `.`:
for such queue names `Q₁`, `Q₂` and any job names, equal keys
`"aws.batch.runtime." ++ Q ++ "." ++ jobName` force equal queue names and equal job names; without
the restriction this fails, the queue `a` with the job `b.c` and the queue `a.b` with the job
`c` having the same key. -/
theorem runtimeKey_injective :
    (∀ (Q₁ Q₂ : String) (js₁ js₂ : JobSummary), '.' ∉ Q₁.data → '.' ∉ Q₂.data →
        "aws.batch.runtime." ++ Q₁ ++ "." ++ StringValue js₁.JobName
          = "aws.batch.runtime." ++ Q₂ ++ "." ++ StringValue js₂.JobName →
        Q₁ = Q₂ ∧ StringValue js₁.JobName = StringValue js₂.JobName) ∧
      (runtimeKey "a" ⟨some "b.c", none⟩ = runtimeKey "a.b" ⟨some "c", none⟩ ∧ "a" ≠ "a.b") := by
  refine ⟨?_, by decide⟩
  intro Q₁ Q₂ js₁ js₂ h₁ h₂ h
  exact runtimeKey_inj Q₁ Q₂ js₁ js₂ h₁ h₂ h

/-- Witness of C10: the queues `q1` and `q1`, jobs `x` and `x`. -/
theorem runtimeKey_injective_witness :
    "q1" = "q1" ∧ StringValue (JobSummary.mk (some "x") none).JobName
      = StringValue (JobSummary.mk (some "x") (some 0)).JobName :=
  runtimeKey_injective.1 "q1" "q1" ⟨some "x", none⟩ ⟨some "x", some 0⟩ (by decide) (by decide) rfl

/-! ## The key set -/

theorem length_set_of_not_mem (m : Stat) (k : String) (v : ℚ) (h : k ∉ m.keys) :
    (m.set k v).length = m.length + 1 := by
  unfold Stat.set
  rw [List.length_cons, List.filter_eq_self.2]
  intro e he
  have : e.1 ≠ k := fun hk => h (hk ▸ List.mem_map_of_mem Prod.fst he)
  simpa using this

theorem length_applyWrites :
    ∀ (ws : List (String × ℚ)) (m : Stat), (ws.map Prod.fst).Nodup →
      (∀ k ∈ ws.map Prod.fst, k ∉ m.keys) → (applyWrites ws m).length = m.length + ws.length := by
  intro ws
  induction ws with
  | nil => intro m _ _; rfl
  | cons w ws ih =>
      intro m hnd hdis
      rw [List.map_cons, List.nodup_cons] at hnd
      rw [applyWrites_cons, ih _ hnd.2, length_set_of_not_mem m _ _
        (hdis w.1 (by simp)), List.length_cons]
      · omega
      · intro k hk hmem
        rcases (Stat.mem_keys_set m w.1 k w.2).1 hmem with h | h
        · exact hnd.1 (h ▸ hk)
        · exact hdis k (by simp [List.mem_map.1 hk]) h

theorem mem_keys_writes (p : AwsBatchPlugin) (clock : Nat → Int) (k : String) :
    k ∈ (writesFrom p clock 0 p.JobQueues.length).map Prod.fst ↔
      (∃ Q ∈ p.JobQueues, ∃ S ∈ statuses, k = jobsKey Q S) ∨
        (∃ i, i < p.JobQueues.length ∧ ∃ js ∈ runningJobs p i, k = runtimeKey (queueAt p i) js) := by
  constructor
  · intro h
    obtain ⟨w, hw, rfl⟩ := List.mem_map.1 h
    obtain ⟨i, _, hi, hq⟩ := (mem_writesFrom p clock w _ 0).1 hw
    rcases (mem_queueWrites p clock i w).1 hq with ⟨j, hj, rfl⟩ | h4
    · exact Or.inl ⟨queueAt p i, queueAt_mem p i (by omega), statusAt j, statusAt_mem j hj, rfl⟩
    · obtain ⟨js, hjs, hk⟩ := mem_runtimeWrites clock _ w _ _ h4
      exact Or.inr ⟨i, by omega, js, hjs, hk⟩
  · rintro (⟨Q, hQ, S, hS, rfl⟩ | ⟨i, hi, js, hjs, rfl⟩)
    · obtain ⟨i, hi, rfl⟩ := exists_queueAt p Q hQ
      obtain ⟨j, hj, rfl⟩ := exists_statusAt S hS
      exact List.mem_map.2 ⟨countWrite p i j,
        (mem_writesFrom p clock _ _ 0).2 ⟨i, by omega, by omega,
          (mem_queueWrites p clock i _).2 (Or.inl ⟨j, hj, rfl⟩)⟩, rfl⟩
    · have hk : runtimeKey (queueAt p i) js
          ∈ (runtimeWrites clock (queueAt p i) (runningJobs p i) (ticksBefore p i)).map Prod.fst := by
        rw [keys_runtimeWrites]
        exact List.mem_map_of_mem _ hjs
      obtain ⟨w, hw, hwk⟩ := List.mem_map.1 hk
      exact List.mem_map.2 ⟨w,
        (mem_writesFrom p clock _ _ 0).2 ⟨i, by omega, by omega,
          (mem_queueWrites p clock i _).2 (Or.inr hw)⟩, hwk⟩

/-- C5: on a pass whose requests all succeed, the keys of the map returned by `FetchMetrics`,
each present once, are exactly the count keys `"aws.batch.jobs." ++ Q ++ "." ++ S` of the
configured queues `Q` and the five statuses `S`, and the runtime keys
`"aws.batch.runtime." ++ Q ++ "." ++ jobName` of the job summaries returned by the RUNNING request
of each configured queue; and for the single queue `q1` with 2 SUBMITTED, 0 PENDING, 1 RUNNABLE,
0 STARTING and 1 RUNNING job the map has exactly six entries, the five counts being 2, 0, 1, 0
and 1. -/
theorem key_set (p : AwsBatchPlugin) (clock : Nat → Int) (hall : allOk p) :
    ∃ m, (FetchMetrics p clock).stat = some m ∧ m.keys.Nodup ∧
      (∀ k, k ∈ m.keys ↔
        (∃ Q ∈ p.JobQueues, ∃ S ∈ statuses, k = "aws.batch.jobs." ++ Q ++ "." ++ S) ∨
        (∃ i, i < p.JobQueues.length ∧ ∃ js ∈ runningJobs p i,
          k = "aws.batch.runtime." ++ queueAt p i ++ "." ++ StringValue js.JobName)) ∧
      (p.JobQueues = ["q1"] → (jobsOf p 0).length = 2 → (jobsOf p 1).length = 0 →
        (jobsOf p 2).length = 1 → (jobsOf p 3).length = 0 → (jobsOf p 4).length = 1 →
        m.length = 6 ∧
        m.get? "aws.batch.jobs.q1.SUBMITTED" = some 2 ∧
        m.get? "aws.batch.jobs.q1.PENDING" = some 0 ∧
        m.get? "aws.batch.jobs.q1.RUNNABLE" = some 1 ∧
        m.get? "aws.batch.jobs.q1.STARTING" = some 0 ∧
        m.get? "aws.batch.jobs.q1.RUNNING" = some 1) := by
  refine ⟨_, stat_of_allOk p clock hall, nodup_keys_applyWrites _ _ List.nodup_nil, ?_, ?_⟩
  · intro k
    rw [mem_keys_applyWrites, mem_keys_writes]
    simp only [Stat.keys, List.map_nil, List.not_mem_nil, or_false]
    rfl
  · intro hq h0 h1 h2 h3 h4
    have hq0 : queueAt p 0 = "q1" := by simp [queueAt, hq]
    obtain ⟨js, hjs⟩ : ∃ js, runningJobs p 0 = [js] := by
      cases hl : runningJobs p 0 with
      | nil => simp [runningJobs, jobsOf] at hl h4; rw [hl] at h4; simp at h4
      | cons a l =>
          cases l with
          | nil => exact ⟨a, rfl⟩
          | cons b l => simp only [runningJobs] at hl; rw [hl] at h4; simp at h4
    have e2 : float64OfInt ((2 : Nat) : Int) = 2 := by
      simpa using float64OfInt_exact 2 (by norm_num)
    have e1 : float64OfInt ((1 : Nat) : Int) = 1 := by
      simpa using float64OfInt_exact 1 (by norm_num)
    have e0 : float64OfInt ((0 : Nat) : Int) = 0 := by
      simpa using float64OfInt_exact 0 (by norm_num)
    have hW : writesFrom p clock 0 p.JobQueues.length
        = [("aws.batch.jobs.q1.SUBMITTED", 2), ("aws.batch.jobs.q1.PENDING", 0),
            ("aws.batch.jobs.q1.RUNNABLE", 1), ("aws.batch.jobs.q1.STARTING", 0),
            ("aws.batch.jobs.q1.RUNNING", 1),
            (runtimeKey "q1" js, getRuntime (clock 0) js)] := by
      simp only [hq, List.length_cons, List.length_nil, writesFrom, queueWrites, countWrite, hq0,
        hjs, runtimeWrites, ticksBefore, h0, h1, h2, h3, h4, Nat.mul_zero, Nat.zero_add, e0, e1, e2,
        List.append_nil, List.cons_append, List.nil_append]
      rfl
    rw [hW]
    have hne : ∀ s : String, jobsKey "q1" s ≠ runtimeKey "q1" js :=
      fun s => jobsKey_ne_runtimeKey _ _ _ _
    have n0 : "aws.batch.jobs.q1.SUBMITTED" ≠ runtimeKey "q1" js := hne "SUBMITTED"
    have n1 : "aws.batch.jobs.q1.PENDING" ≠ runtimeKey "q1" js := hne "PENDING"
    have n2 : "aws.batch.jobs.q1.RUNNABLE" ≠ runtimeKey "q1" js := hne "RUNNABLE"
    have n3 : "aws.batch.jobs.q1.STARTING" ≠ runtimeKey "q1" js := hne "STARTING"
    have n4 : "aws.batch.jobs.q1.RUNNING" ≠ runtimeKey "q1" js := hne "RUNNING"
    refine ⟨?_, ?_, ?_, ?_, ?_, ?_⟩
    · rw [length_applyWrites _ _ (by simp [n0, n1, n2, n3, n4]) (by simp [Stat.keys])]
      rfl
    all_goals
      simp only [applyWrites, List.foldl_cons, List.foldl_nil, Stat.get?_set]
      simp [n0, n1, n2, n3, n4]

/-- Witness of C5: the example of the queue `q1`. -/
theorem key_set_witness :
    ∃ m, (FetchMetrics (mkPlugin exampleClient ["q1"]) (constClock 1700000300000000000)).stat = some m ∧
      m.keys.Nodup ∧
      (∀ k, k ∈ m.keys ↔
        (∃ Q ∈ (mkPlugin exampleClient ["q1"]).JobQueues, ∃ S ∈ statuses,
          k = "aws.batch.jobs." ++ Q ++ "." ++ S) ∨
        (∃ i, i < (mkPlugin exampleClient ["q1"]).JobQueues.length ∧
          ∃ js ∈ runningJobs (mkPlugin exampleClient ["q1"]) i,
            k = "aws.batch.runtime." ++ queueAt (mkPlugin exampleClient ["q1"]) i ++ "."
              ++ StringValue js.JobName)) ∧
      m.length = 6 := by
  obtain ⟨m, h1, h2, h3, h4⟩ :=
    key_set (mkPlugin exampleClient ["q1"]) (constClock 1700000300000000000) allOk_example
  exact ⟨m, h1, h2, h3, (h4 rfl rfl rfl rfl rfl rfl).1⟩

/-! ## Runtime metrics -/

/-- The runtime of a job with a start timestamp, when neither the timestamp in nanoseconds nor
the elapsed time leaves the `int64` range. -/
theorem getRuntime_of_start (now : Int) (js : JobSummary) (T : Int) (hT : js.StartedAt = some T)
    (hTlo : minInt64 ≤ T * 1000000) (hThi : T * 1000000 ≤ maxInt64)
    (hdlo : minInt64 ≤ now - T * 1000000) (hdhi : now - T * 1000000 ≤ maxInt64) :
    getRuntime now js = Minutes (now - T * 1000000) := by
  unfold minInt64 maxInt64 at *
  have hw : wrapInt64 (T * 1000000) = T * 1000000 := by
    unfold wrapInt64
    omega
  unfold getRuntime
  rw [hT]
  simp only [MillisecondsTimeValue, timeUnix, hw, timeSince, timeSub, maxInt64, minInt64]
  rw [if_neg (by omega), if_neg (by omega)]
  congr 1
  omega

/-- C3, as amended: on a pass whose requests all succeed, for a job summary of the RUNNING reply
of a configured queue that has a start timestamp `T` (in milliseconds) and whose key no later job
of the pass writes, the map holds at `"aws.batch.runtime." ++ Q ++ "." ++ jobName` the value
`Minutes (M - T * 1000000)`, `M` being the clock reading taken for that job: the elapsed minutes
`(M - T * 1000000) / 60000000000` up to `float64` rounding (relative error at most 2^-51),
provided `T * 1000000` and `M - T * 1000000` fit the `int64` range. -/
theorem runtime_metric_value (p : AwsBatchPlugin) (clock : Nat → Int) (i : Nat)
    (l₁ l₂ : List JobSummary) (js : JobSummary) (T : Int)
    (hall : allOk p) (hi : i < p.JobQueues.length)
    (hsplit : runningJobs p i = l₁ ++ js :: l₂) (hT : js.StartedAt = some T)
    (hTlo : minInt64 ≤ T * 1000000) (hThi : T * 1000000 ≤ maxInt64)
    (hdlo : minInt64 ≤ clock (ticksBefore p i + l₁.length) - T * 1000000)
    (hdhi : clock (ticksBefore p i + l₁.length) - T * 1000000 ≤ maxInt64)
    (hl₂ : ∀ js' ∈ l₂, runtimeKey (queueAt p i) js' ≠ runtimeKey (queueAt p i) js)
    (hlater : ∀ i', i < i' → i' < p.JobQueues.length → ∀ js' ∈ runningJobs p i',
      runtimeKey (queueAt p i') js' ≠ runtimeKey (queueAt p i) js) :
    ∃ m v, (FetchMetrics p clock).stat = some m ∧
      m.get? ("aws.batch.runtime." ++ queueAt p i ++ "." ++ StringValue js.JobName) = some v ∧
      v = Minutes (clock (ticksBefore p i + l₁.length) - T * 1000000) ∧
      |v - ((clock (ticksBefore p i + l₁.length) - T * 1000000 : Int) : ℚ) / 60000000000|
        ≤ |((clock (ticksBefore p i + l₁.length) - T * 1000000 : Int) : ℚ) / 60000000000|
            * 2 ^ (-51 : Int) := by
  refine ⟨_, _, stat_of_allOk p clock hall,
    runtime_entry p clock i hi l₁ l₂ js hsplit hl₂ hlater,
    getRuntime_of_start _ js T hT hTlo hThi hdlo hdhi, ?_⟩
  rw [getRuntime_of_start _ js T hT hTlo hThi hdlo hdhi]
  exact Minutes_approx _ hdlo hdhi

/-- Witness of C3 as amended: the RUNNING job of `q1`, measured five minutes after its start. -/
theorem runtime_metric_value_witness :
    ∃ m v, (FetchMetrics (mkPlugin exampleClient ["q1"]) (constClock 1700000300000000000)).stat
        = some m ∧
      m.get? ("aws.batch.runtime." ++ queueAt (mkPlugin exampleClient ["q1"]) 0 ++ "."
        ++ StringValue (JobSummary.mk (some "job") (some 1700000000000)).JobName) = some v ∧
      v = Minutes (constClock 1700000300000000000
            (ticksBefore (mkPlugin exampleClient ["q1"]) 0 + ([] : List JobSummary).length)
          - 1700000000000 * 1000000) ∧
      |v - ((constClock 1700000300000000000
            (ticksBefore (mkPlugin exampleClient ["q1"]) 0 + ([] : List JobSummary).length)
          - 1700000000000 * 1000000 : Int) : ℚ) / 60000000000|
        ≤ |((constClock 1700000300000000000
            (ticksBefore (mkPlugin exampleClient ["q1"]) 0 + ([] : List JobSummary).length)
          - 1700000000000 * 1000000 : Int) : ℚ) / 60000000000| * 2 ^ (-51 : Int) :=
  runtime_metric_value (mkPlugin exampleClient ["q1"]) (constClock 1700000300000000000) 0 [] []
    ⟨some "job", some 1700000000000⟩ 1700000000000 allOk_example (by decide)
    runningJobs_example rfl (by decide) (by decide) (by decide) (by decide)
    (by intro js' h; cases h)
    (by
      intro i' h1 h2
      simp only [mkPlugin, List.length_cons, List.length_nil] at h2
      omega)

theorem allOk_farFuture : allOk (mkPlugin farFutureClient ["q1"]) := by
  intro k hk
  simp only [mkPlugin, List.length_cons, List.length_nil] at hk
  interval_cases k <;> rfl

theorem get?_single_running (c : Client) (clock : Nat → Int) (js : JobSummary)
    (hall : allOk (mkPlugin c ["q1"])) (hrun : runningJobs (mkPlugin c ["q1"]) 0 = [] ++ js :: []) :
    ∃ m, (FetchMetrics (mkPlugin c ["q1"]) clock).stat = some m ∧
      m.get? (runtimeKey "q1" js) = some (getRuntime (clock 0) js) := by
  refine ⟨_, stat_of_allOk _ clock hall, ?_⟩
  have h := runtime_entry (mkPlugin c ["q1"]) clock 0 (by simp [mkPlugin]) [] [] js hrun
    (by intro js' h; cases h)
    (by
      intro i' h1 h2
      simp only [mkPlugin, List.length_cons, List.length_nil] at h2
      omega)
  exact h

/-- Counterexample to C3 as stated. First, a job measured one second after its start: the map
holds the `float64` nearest to 1/60, which is not 1/60. Second, a job whose start timestamp is
9223372036855 ms, measured at 1800000000000000000 ns: the difference fits the `int64` range, but
the timestamp in nanoseconds does not, and the map holds the largest duration in minutes, not the
(negative) difference in minutes. -/
theorem runtime_metric_exact_counterexample :
    (∃ m, (FetchMetrics (mkPlugin exampleClient ["q1"]) (constClock 1700000001000000000)).stat
          = some m ∧
        runningJobs (mkPlugin exampleClient ["q1"]) 0 = [⟨some "job", some 1700000000000⟩] ∧
        minInt64 ≤ 1700000001000000000 - 1700000000000 * 1000000 ∧
        1700000001000000000 - 1700000000000 * 1000000 ≤ maxInt64 ∧
        m.get? "aws.batch.runtime.q1.job" = some (4803839602528529 / 288230376151711744) ∧
        (4803839602528529 / 288230376151711744 : ℚ)
          ≠ ((1700000001000000000 - 1700000000000 * 1000000 : Int) : ℚ) / 60000000000) ∧
      (∃ m, (FetchMetrics (mkPlugin farFutureClient ["q1"]) (constClock 1800000000000000000)).stat
          = some m ∧
        runningJobs (mkPlugin farFutureClient ["q1"]) 0 = [⟨some "job", some 9223372036855⟩] ∧
        minInt64 ≤ 1800000000000000000 - 9223372036855 * 1000000 ∧
        1800000000000000000 - 9223372036855 * 1000000 ≤ maxInt64 ∧
        m.get? "aws.batch.runtime.q1.job" = some (2579041748511209 / 16777216) ∧
        (2579041748511209 / 16777216 : ℚ)
          ≠ ((1800000000000000000 - 9223372036855 * 1000000 : Int) : ℚ) / 60000000000) := by
  constructor
  · obtain ⟨m, h1, h2⟩ := get?_single_running exampleClient (constClock 1700000001000000000)
      ⟨some "job", some 1700000000000⟩ allOk_example rfl
    refine ⟨m, h1, rfl, by decide, by decide, ?_, by norm_num⟩
    have hk : runtimeKey "q1" ⟨some "job", some 1700000000000⟩ = "aws.batch.runtime.q1.job" := by
      decide
    rw [hk] at h2
    rw [h2, ← Minutes_second]
    have hd : timeSince 1700000001000000000 (MillisecondsTimeValue (some 1700000000000))
        = 1000000000 := by decide
    simp only [getRuntime, constClock, hd]
  · obtain ⟨m, h1, h2⟩ := get?_single_running farFutureClient (constClock 1800000000000000000)
      ⟨some "job", some 9223372036855⟩ allOk_farFuture rfl
    refine ⟨m, h1, rfl, by decide, by decide, ?_, by norm_num⟩
    have hk : runtimeKey "q1" ⟨some "job", some 9223372036855⟩ = "aws.batch.runtime.q1.job" := by
      decide
    rw [hk] at h2
    rw [h2, ← Minutes_maxInt64]
    have hd : timeSince 1800000000000000000 (MillisecondsTimeValue (some 9223372036855))
        = maxInt64 := by decide
    simp only [getRuntime, constClock, hd]

/-! ## Jobs without a start timestamp -/

/-- Counterexample to C4 as stated: measured at 1800000000000000000 ns after the Unix epoch
(30000000 minutes), a job without start timestamp gets the runtime 153722867.28..., a job
started at 0 ms gets 30000000. -/
theorem getRuntime_no_start_counterexample :
    getRuntime 1800000000000000000 ⟨some "job", none⟩ = 2579041748511209 / 16777216 ∧
      getRuntime 1800000000000000000 ⟨some "job", some 0⟩ = 30000000 ∧
      ((1800000000000000000 : Int) : ℚ) / 60000000000 = 30000000 ∧
      getRuntime 1800000000000000000 ⟨some "job", none⟩
        ≠ getRuntime 1800000000000000000 ⟨some "job", some 0⟩ := by
  have ha : getRuntime 1800000000000000000 ⟨some "job", none⟩ = 2579041748511209 / 16777216 := by
    have hd : timeSince 1800000000000000000 (MillisecondsTimeValue none) = maxInt64 := by decide
    simp only [getRuntime, hd, Minutes_maxInt64]
  have hb : getRuntime 1800000000000000000 ⟨some "job", some 0⟩ = 30000000 := by
    have hd : timeSince 1800000000000000000 (MillisecondsTimeValue (some 0))
        = 60000000000 * 30000000 := by decide
    simp only [getRuntime, hd]
    rw [Minutes_of_multiple 30000000 (by norm_num)]
    norm_num
  refine ⟨ha, hb, by norm_num, ?_⟩
  rw [ha, hb]
  norm_num

/-- C4, as amended: a job summary without start timestamp is measured from the zero `time.Time`
(January 1 of year 1), not from the Unix epoch: `getRuntime` returns the minutes of the duration
between that instant and the clock reading, which is the largest duration, 2^63 - 1 ns or
153722867.28... minutes, at every clock reading from the year 293 on, whatever the reading. -/
theorem getRuntime_no_start (now : Int) (js : JobSummary) (h : js.StartedAt = none) :
    getRuntime now js = Minutes (timeSub now zeroTime) ∧
      (zeroTime + maxInt64 ≤ now → getRuntime now js = 2579041748511209 / 16777216) := by
  have h1 : getRuntime now js = Minutes (timeSub now zeroTime) := by
    unfold getRuntime
    rw [h]
    rfl
  refine ⟨h1, ?_⟩
  intro hnow
  rw [h1, ← Minutes_maxInt64]
  congr 1
  unfold timeSub
  unfold zeroTime maxInt64 minInt64 at *
  split_ifs <;> omega

/-- Witness of C4 as amended: a clock reading of the year 2027. -/
theorem getRuntime_no_start_witness :
    getRuntime 1800000000000000000 ⟨some "job", none⟩
        = Minutes (timeSub 1800000000000000000 zeroTime) ∧
      zeroTime + maxInt64 ≤ 1800000000000000000 ∧
      getRuntime 1800000000000000000 ⟨some "job", none⟩ = 2579041748511209 / 16777216 :=
  ⟨(getRuntime_no_start 1800000000000000000 ⟨some "job", none⟩ rfl).1, by decide,
    (getRuntime_no_start 1800000000000000000 ⟨some "job", none⟩ rfl).2 (by decide)⟩

/-! ## Jobs sharing a name -/

theorem runtimeKey_same_queue (name : String) (js js' : JobSummary)
    (h : runtimeKey name js' = runtimeKey name js) :
    StringValue js'.JobName = StringValue js.JobName := by
  have h' := congrArg String.data h
  rw [runtimeKey_data, runtimeKey_data] at h'
  have h2 := List.append_cancel_left (List.append_cancel_left h')
  simp only [List.cons.injEq, true_and] at h2
  exact String.ext h2

/-- The RUNNING count of a queue that is not configured again later. -/
theorem running_count_entry (p : AwsBatchPlugin) (clock : Nat → Int) (i : Nat)
    (hi : i < p.JobQueues.length)
    (hagain : ∀ i', i < i' → i' < p.JobQueues.length → queueAt p i' ≠ queueAt p i) :
    (applyWrites (writesFrom p clock 0 p.JobQueues.length) []).get?
        (jobsKey (queueAt p i) "RUNNING") = some (float64OfInt (runningJobs p i).length) := by
  obtain ⟨n, hn⟩ : ∃ n, p.JobQueues.length = i + (1 + n) := ⟨p.JobQueues.length - i - 1, by omega⟩
  have hW : writesFrom p clock 0 p.JobQueues.length
      = (writesFrom p clock 0 i
          ++ [countWrite p i 0, countWrite p i 1, countWrite p i 2, countWrite p i 3])
        ++ (jobsKey (queueAt p i) "RUNNING", float64OfInt (runningJobs p i).length)
          :: (runtimeWrites clock (queueAt p i) (runningJobs p i) (ticksBefore p i)
              ++ writesFrom p clock (i + 1) n) := by
    rw [hn, writesFrom_add, writesFrom_add]
    simp only [Nat.zero_add, writesFrom, queueWrites, List.append_assoc, List.cons_append,
      List.nil_append, List.append_nil]
    rfl
  rw [hW]
  apply get?_applyWrites_last
  intro w hw
  rcases List.mem_append.1 hw with h | h
  · obtain ⟨js', _, hk⟩ := mem_runtimeWrites clock _ w _ _ h
    rw [hk]
    exact fun e => jobsKey_ne_runtimeKey _ _ _ _ e.symm
  · obtain ⟨i', h1, h2, h3⟩ := (mem_writesFrom p clock w n (i + 1)).1 h
    rcases (mem_queueWrites p clock i' w).1 h3 with ⟨j, hj, hw'⟩ | h4
    · rw [hw']
      intro e
      obtain ⟨e1, _⟩ := jobsKey_inj _ _ _ _ (statusAt_mem j hj) (by simp [statuses]) e
      exact hagain i' (by omega) (by omega) e1
    · obtain ⟨js', _, hk⟩ := mem_runtimeWrites clock _ w _ _ h4
      rw [hk]
      exact fun e => jobsKey_ne_runtimeKey _ _ _ _ e.symm

theorem allOk_collision (queues : List String) : allOk (mkPlugin collisionClient queues) := by
  intro k _
  unfold replyOf getListJobs mkPlugin collisionClient
  simp only
  split_ifs <;> rfl

theorem allOk_draining (queues : List String) : allOk (mkPlugin drainingClient queues) := by
  intro k _
  unfold replyOf getListJobs mkPlugin drainingClient
  simp only
  split_ifs <;> rfl

/-- Counterexample to C8 as stated. First, the queues `a` and `a.b` are configured; the RUNNING
reply of `a` holds two jobs named `b.c`, the last of which has run 1 minute at every measurement,
and the RUNNING reply of `a.b` holds a job named `c` that has run 2 minutes; the map holds 2 at
the key `aws.batch.runtime.a.b.c`. Second, the queue `a` is configured twice; its first RUNNING
reply holds two jobs named `x` and its second RUNNING reply holds none, so that no later job
has their key; the map holds 0, not 2, at the key `aws.batch.jobs.a.RUNNING`. -/
theorem last_write_wins_counterexample :
    (∃ m, (FetchMetrics (mkPlugin collisionClient ["a", "a.b"])
            (constClock 1700000120000000000)).stat = some m ∧
        runningJobs (mkPlugin collisionClient ["a", "a.b"]) 0
          = [⟨some "b.c", some 1700000000000⟩, ⟨some "b.c", some 1700000060000⟩] ∧
        "aws.batch.runtime." ++ "a" ++ "." ++ "b.c" = "aws.batch.runtime.a.b.c" ∧
        (∀ t, getRuntime (constClock 1700000120000000000 t) ⟨some "b.c", some 1700000060000⟩ = 1) ∧
        m.get? "aws.batch.runtime.a.b.c" = some 2) ∧
      (∃ m, (FetchMetrics (mkPlugin drainingClient ["a", "a"])
            (constClock 1700000120000000000)).stat = some m ∧
        runningJobs (mkPlugin drainingClient ["a", "a"]) 0
          = [⟨some "x", some 1700000000000⟩, ⟨some "x", some 1700000060000⟩] ∧
        runningJobs (mkPlugin drainingClient ["a", "a"]) 1 = [] ∧
        "aws.batch.jobs." ++ "a" ++ "." ++ "RUNNING" = "aws.batch.jobs.a.RUNNING" ∧
        m.get? "aws.batch.jobs.a.RUNNING" = some 0) := by
  constructor
  · refine ⟨_, stat_of_allOk _ _ (allOk_collision _), rfl, by decide, ?_, ?_⟩
    · intro t
      have hd : timeSince 1700000120000000000 (MillisecondsTimeValue (some 1700000060000))
          = 60000000000 * 1 := by decide
      simp only [getRuntime, constClock, hd]
      rw [Minutes_of_multiple 1 (by norm_num)]
      norm_num
    · have h := runtime_entry (mkPlugin collisionClient ["a", "a.b"])
        (constClock 1700000120000000000) 1 (by simp [mkPlugin]) [] []
        ⟨some "c", some 1700000000000⟩ rfl (by intro js' h; cases h)
        (by
          intro i' h1 h2
          simp only [mkPlugin, List.length_cons, List.length_nil] at h2
          omega)
      have hk : runtimeKey (queueAt (mkPlugin collisionClient ["a", "a.b"]) 1)
          ⟨some "c", some 1700000000000⟩ = "aws.batch.runtime.a.b.c" := by decide
      rw [hk] at h
      rw [h]
      have hd : timeSince 1700000120000000000 (MillisecondsTimeValue (some 1700000000000))
          = 60000000000 * 2 := by decide
      simp only [getRuntime, constClock, hd]
      rw [Minutes_of_multiple 2 (by norm_num)]
      norm_num
  · refine ⟨_, stat_of_allOk _ _ (allOk_draining _), rfl, rfl, by decide, ?_⟩
    have h := running_count_entry (mkPlugin drainingClient ["a", "a"])
      (constClock 1700000120000000000) 1 (by simp [mkPlugin])
      (by
        intro i' h1 h2
        simp only [mkPlugin, List.length_cons, List.length_nil] at h2
        omega)
    have hk : jobsKey (queueAt (mkPlugin drainingClient ["a", "a"]) 1) "RUNNING"
        = "aws.batch.jobs.a.RUNNING" := by decide
    have hr : runningJobs (mkPlugin drainingClient ["a", "a"]) 1 = [] := rfl
    rw [hk, hr] at h
    rw [h]
    have e0 : float64OfInt ((0 : Nat) : Int) = 0 := by
      simpa using float64OfInt_exact 0 (by norm_num)
    simpa using e0

/-- C8, as amended: last write wins among the jobs of a queue that share a name. On a pass whose
requests all succeed, when the RUNNING reply of a configured queue `Q` holds a job summary `js`
after which no summary of that reply has the same job name, and no RUNNING job of a queue
configured after `Q` has the same runtime key, the map has a single entry at
`"aws.batch.runtime." ++ Q ++ "." ++ jobName`, whose value is the runtime computed for `js`, the
summaries of the same name before it being overwritten; and when moreover `Q` is not configured
again after, the count at `"aws.batch.jobs." ++ Q ++ ".RUNNING"` is the number of all the
summaries of the reply. -/
theorem last_write_wins (p : AwsBatchPlugin) (clock : Nat → Int) (i : Nat)
    (l₁ l₂ : List JobSummary) (js : JobSummary) (hall : allOk p) (hi : i < p.JobQueues.length)
    (hsplit : runningJobs p i = l₁ ++ js :: l₂)
    (hlast : ∀ js' ∈ l₂, StringValue js'.JobName ≠ StringValue js.JobName)
    (hlater : ∀ i', i < i' → i' < p.JobQueues.length → ∀ js' ∈ runningJobs p i',
      runtimeKey (queueAt p i') js' ≠ runtimeKey (queueAt p i) js) :
    ∃ m, (FetchMetrics p clock).stat = some m ∧
      m.keys.count ("aws.batch.runtime." ++ queueAt p i ++ "." ++ StringValue js.JobName) = 1 ∧
      m.get? ("aws.batch.runtime." ++ queueAt p i ++ "." ++ StringValue js.JobName)
        = some (getRuntime (clock (ticksBefore p i + l₁.length)) js) ∧
      ((∀ i', i < i' → i' < p.JobQueues.length → queueAt p i' ≠ queueAt p i) →
        m.get? ("aws.batch.jobs." ++ queueAt p i ++ "." ++ "RUNNING")
          = some (float64OfInt (l₁.length + 1 + l₂.length : Nat))) := by
  refine ⟨_, stat_of_allOk p clock hall, ?_, ?_, ?_⟩
  · apply List.count_eq_one_of_mem (nodup_keys_applyWrites _ [] List.nodup_nil)
    rw [mem_keys_applyWrites, mem_keys_writes]
    exact Or.inl (Or.inr ⟨i, hi, js, by rw [hsplit]; simp, rfl⟩)
  · exact runtime_entry p clock i hi l₁ l₂ js hsplit
      (fun js' hjs' e => hlast js' hjs' (runtimeKey_same_queue _ _ _ e)) hlater
  · intro hagain
    have h := running_count_entry p clock i hi hagain
    rw [hsplit] at h
    simp only [List.length_append, List.length_cons] at h
    have e : l₁.length + (l₂.length + 1) = l₁.length + 1 + l₂.length := by omega
    rw [e] at h
    exact h

/-- Witness of C8 as amended: the queue `a` alone, with its two jobs named `b.c`. -/
theorem last_write_wins_witness :
    ∃ m, (FetchMetrics (mkPlugin collisionClient ["a"]) (constClock 1700000120000000000)).stat
          = some m ∧
      m.keys.count ("aws.batch.runtime." ++ queueAt (mkPlugin collisionClient ["a"]) 0 ++ "."
        ++ StringValue (JobSummary.mk (some "b.c") (some 1700000060000)).JobName) = 1 ∧
      m.get? ("aws.batch.runtime." ++ queueAt (mkPlugin collisionClient ["a"]) 0 ++ "."
        ++ StringValue (JobSummary.mk (some "b.c") (some 1700000060000)).JobName)
        = some (getRuntime (constClock 1700000120000000000
            (ticksBefore (mkPlugin collisionClient ["a"]) 0
              + [JobSummary.mk (some "b.c") (some 1700000000000)].length))
            ⟨some "b.c", some 1700000060000⟩) ∧
      m.get? ("aws.batch.jobs." ++ queueAt (mkPlugin collisionClient ["a"]) 0 ++ "." ++ "RUNNING")
        = some (float64OfInt
            ([JobSummary.mk (some "b.c") (some 1700000000000)].length + 1
              + ([] : List JobSummary).length : Nat)) := by
  obtain ⟨m, h1, h2, h3, h4⟩ :=
    last_write_wins (mkPlugin collisionClient ["a"]) (constClock 1700000120000000000) 0
      [⟨some "b.c", some 1700000000000⟩] [] ⟨some "b.c", some 1700000060000⟩
      (allOk_collision _) (by decide) rfl (by intro js' h; cases h)
      (by
        intro i' h1 h2
        simp only [mkPlugin, List.length_cons, List.length_nil] at h2
        omega)
  refine ⟨m, h1, h2, h3, h4 ?_⟩
  intro i' h1 h2
  simp only [mkPlugin, List.length_cons, List.length_nil] at h2
  omega

end MpAwsBatch
